import Mathlib

/-!
Verification development for the ragflow agent workflow repository.

Shallow embedding of the Python sources under src/ (agent/workflow_builder.py,
agent/component/generate.py, agent/component/retrieval.py, rag/prompts.py,
api/db/services/conversation_service.py).  Python dicts that serve as ordered
mappings are embedded as association lists, pandas DataFrames as record lists
with explicit column-presence flags, and Python exceptions as `Except` errors.
External collaborators (the execution engine / canvas, the generation backend,
the web-search source) are passed in as explicit parameters, following the
interface the spec fixes for them.
-/

set_option linter.unusedVariables false

namespace Ragflow

/-! ## Workflow graph model (agent/workflow_builder.py)

A `WorkflowNode` carries the component name, the parameter mapping
(embedded as a string-keyed association list with string values, enough for
the structural claims), the ordered upstream/downstream id lists and the
optional parent id.  A `Workflow` holds the insertion-ordered node mapping
plus the transient top-level DSL lists. -/

structure WNode where
  component_name : String
  params : List (String × String)
  upstream : List String
  downstream : List String
  parent_id : Option String
deriving DecidableEq

abbrev NodeList := List (String × WNode)

structure Workflow where
  workflow_id : String
  description : String
  nodes : NodeList
  history : List String
  messages : List String
  reference : List String
  path : List String
  answer : List String
deriving DecidableEq

/-- Python raises `ValueError` with a message for every graph-authoring
failure in workflow_builder.py. -/
inductive WfErr where
  | valueError (msg : String)
deriving DecidableEq

/-- `workflow.nodes.get(node_id)` on the insertion-ordered dict: first (and,
for a dict, only) entry with the key. -/
def lookupNode : NodeList → String → Option WNode
  | [], _ => none
  | p :: rest, k => if p.1 = k then some p.2 else lookupNode rest k

/-- In-place mutation of the node object stored under key `k` (Python mutates
the `WorkflowNode` object held by the dict). -/
def updateNode (k : String) (f : WNode → WNode) : NodeList → NodeList
  | [] => []
  | p :: rest => (if p.1 = k then (p.1, f p.2) else p) :: updateNode k f rest

/-- `del workflow.nodes[node_id]`. -/
def eraseNode (k : String) : NodeList → NodeList
  | [] => []
  | p :: rest => if p.1 = k then eraseNode k rest else p :: eraseNode k rest

/-- The component registry as loaded from the agent.component package export
list: its public names without the `...Param` entries and without
`component_class`. -/
def available_components : List String :=
  ["Begin", "Generate", "Retrieval", "Answer", "Categorize", "Switch",
   "Relevant", "Message", "RewriteQuestion", "KeywordExtract", "Concentrator",
   "Baidu", "DuckDuckGo", "Google", "Bing", "GoogleScholar", "Iteration",
   "IterationItem", "Template"]

/-- `create_workflow()` with its default arguments. -/
def create_workflow : Workflow :=
  { workflow_id := "new_workflow", description := "A new workflow",
    nodes := [], history := [], messages := [], reference := [],
    path := [], answer := [] }

/-- `add_node(workflow, node_id, component_name, params)`: registry check,
then duplicate-id check, then the `WorkflowNode` constructor's non-empty
check, then insertion at the end of the dict. -/
def add_node (w : Workflow) (node_id component_name : String)
    (params : List (String × String)) : Except WfErr Workflow :=
  if component_name ∉ available_components then
    .error (.valueError ("Component '" ++ component_name ++ "' is not recognized."))
  else if (lookupNode w.nodes node_id).isSome then
    .error (.valueError ("Node with ID '" ++ node_id ++ "' already exists."))
  else if node_id = "" then
    .error (.valueError "node_id must be a non-empty string.")
  else
    .ok { w with nodes := w.nodes ++
      [(node_id, { component_name := component_name, params := params,
                   upstream := [], downstream := [], parent_id := none })] }

/-- The in-place mutation `upstream_node.downstream_node_ids.append(d)`
guarded by the membership check of `connect_nodes`. -/
def add_downstream (d : String) (n : WNode) : WNode :=
  if d ∈ n.downstream then n else { n with downstream := n.downstream ++ [d] }

/-- The in-place mutation `downstream_node.upstream_node_ids.append(u)`
guarded by the membership check of `connect_nodes`. -/
def add_upstream (u : String) (n : WNode) : WNode :=
  if u ∈ n.upstream then n else { n with upstream := n.upstream ++ [u] }

/-- `node.downstream_node_ids.remove(d)` guarded by the membership check
(`list.remove` drops the first occurrence, as `List.erase` does). -/
def remove_downstream (d : String) (n : WNode) : WNode :=
  if d ∈ n.downstream then { n with downstream := n.downstream.erase d } else n

/-- `node.upstream_node_ids.remove(u)` guarded by the membership check. -/
def remove_upstream (u : String) (n : WNode) : WNode :=
  if u ∈ n.upstream then { n with upstream := n.upstream.erase u } else n

/-- `if other_node.parent_id == node_id: other_node.parent_id = None`. -/
def clear_parent (node_id : String) (n : WNode) : WNode :=
  if n.parent_id = some node_id then { n with parent_id := none } else n

/-- `connect_nodes(workflow, upstream_node_id, downstream_node_id)`: both
endpoints must exist (upstream reported first), then the downstream id is
appended to the upstream node's `downstream_node_ids` unless already present,
and symmetrically for the upstream id. -/
def connect_nodes (w : Workflow) (u d : String) : Except WfErr Workflow :=
  match lookupNode w.nodes u, lookupNode w.nodes d with
  | none, _ => .error (.valueError ("Upstream node '" ++ u ++ "' not found."))
  | some _, none => .error (.valueError ("Downstream node '" ++ d ++ "' not found."))
  | some _, some _ =>
    let ns1 := updateNode u (add_downstream d) w.nodes
    let ns2 := updateNode d (add_upstream u) ns1
    .ok { w with nodes := ns2 }

/-- `disconnect_nodes(workflow, upstream_node_id, downstream_node_id)`: each
side is cleaned independently when the node exists and holds the edge;
otherwise only a warning is printed — the function has no raise path. -/
def disconnect_nodes (w : Workflow) (u d : String) : Except WfErr Workflow :=
  let ns1 := updateNode u (remove_downstream d) w.nodes
  let ns2 := updateNode d (remove_upstream u) ns1
  .ok { w with nodes := ns2 }

/-- The node-mapping transformation of `remove_node` once the node was
found: remove the edge back-references from the nodes listed in the removed
node's upstream list, then (re-reading the removed node's possibly already
mutated downstream list) from those in its downstream list, clear
`parent_id` on every node that pointed at it, and delete the entry. -/
def remove_node_nodes (ns : NodeList) (node_id : String) (n : WNode) : NodeList :=
  let ns1 := n.upstream.foldl (fun acc uid =>
    updateNode uid (remove_downstream node_id) acc) ns
  let dl := match lookupNode ns1 node_id with
    | some n1 => n1.downstream
    | none => []
  let ns2 := dl.foldl (fun acc did =>
    updateNode did (remove_upstream node_id) acc) ns1
  let ns3 := ns2.map (fun p => (p.1, clear_parent node_id p.2))
  eraseNode node_id ns3

/-- `remove_node(workflow, node_id)`: fails when the id is absent; otherwise
applies `remove_node_nodes`. -/
def remove_node (w : Workflow) (node_id : String) : Except WfErr Workflow :=
  match lookupNode w.nodes node_id with
  | none => .error (.valueError ("Node with ID '" ++ node_id ++ "' not found in workflow."))
  | some n => .ok { w with nodes := remove_node_nodes w.nodes node_id n }

/-- One graph-authoring operation, for reasoning about operation sequences. -/
inductive WfOp where
  | add (node_id component_name : String) (params : List (String × String))
  | connect (u d : String)
  | disconnect (u d : String)
  | remove (node_id : String)
deriving DecidableEq

def apply_op (w : Workflow) : WfOp → Except WfErr Workflow
  | .add i c p => add_node w i c p
  | .connect u d => connect_nodes w u d
  | .disconnect u d => disconnect_nodes w u d
  | .remove i => remove_node w i

/-- A failing operation raises in Python and leaves the graph unchanged. -/
def step_op (w : Workflow) (op : WfOp) : Workflow :=
  match apply_op w op with
  | .ok w2 => w2
  | .error _ => w

def run_ops (ops : List WfOp) : Workflow :=
  ops.foldl step_op create_workflow

/-- Every id referenced from an adjacency list is a key of the node mapping. -/
def NodesClosed (ns : NodeList) : Prop :=
  ∀ k n, lookupNode ns k = some n →
    (∀ i ∈ n.upstream, (lookupNode ns i).isSome) ∧
    (∀ i ∈ n.downstream, (lookupNode ns i).isSome)

def hasDown (ns : NodeList) (a b : String) : Prop :=
  ∃ n, lookupNode ns a = some n ∧ b ∈ n.downstream

def hasUp (ns : NodeList) (b a : String) : Prop :=
  ∃ n, lookupNode ns b = some n ∧ a ∈ n.upstream

/-- `b` is listed downstream of `a` exactly when `a` is listed upstream of `b`. -/
def EdgesSymm (ns : NodeList) : Prop :=
  ∀ a b, hasDown ns a b ↔ hasUp ns b a

/-- Auxiliary strengthening: adjacency lists carry no duplicates (connect
checks membership before appending, so this is maintained). -/
def AdjNodup (ns : NodeList) : Prop :=
  ∀ k n, lookupNode ns k = some n → n.upstream.Nodup ∧ n.downstream.Nodup

def WfInv (ns : NodeList) : Prop :=
  AdjNodup ns ∧ NodesClosed ns ∧ EdgesSymm ns

/-! ## Wire-format document (workflow_builder.py `to_dsl_dict`, spec section 6) -/

structure DSLNode where
  component_name : String
  params : List (String × String)
  downstream : List String
  upstream : List String
  parent_id : String
deriving DecidableEq

structure DSLDoc where
  components : List (String × DSLNode)
  history : List String
  messages : List String
  reference : List String
  path : List String
  answer : List String
deriving DecidableEq

/-- `WorkflowNode.to_dsl_dict`: the DSL expects `""` when there is no parent
(`self.parent_id or ""`, which also maps an empty-string parent to `""`). -/
def node_to_dsl (n : WNode) : DSLNode :=
  { component_name := n.component_name, params := n.params,
    downstream := n.downstream, upstream := n.upstream,
    parent_id := (n.parent_id.getD "") }

/-- `Workflow.to_dsl_dict`. -/
def to_dsl_dict (w : Workflow) : DSLDoc :=
  { components := w.nodes.map (fun p => (p.1, node_to_dsl p.2)),
    history := w.history, messages := w.messages, reference := w.reference,
    path := w.path, answer := w.answer }

/-- Modelled from the spec: the deserialization direction (`fromDocument`)
lives in the Canvas execution engine, which is not under src/; spec section 6
fixes the wire format — `components` maps node id to an object with
`component_name`, `params`, `downstream`, `upstream` and `parent_id`
(empty string meaning no parent) — and section 3 says nodes are created from
exactly these fields.  `from_document` reads such a document into a fresh
workflow. -/
def from_document (doc : DSLDoc) : Workflow :=
  { workflow_id := "new_workflow", description := "A new workflow",
    nodes := doc.components.map (fun p =>
      (p.1, { component_name := p.2.component_name, params := p.2.params,
              upstream := p.2.upstream, downstream := p.2.downstream,
              parent_id := if p.2.parent_id = "" then none else some p.2.parent_id })),
    history := doc.history, messages := doc.messages,
    reference := doc.reference, path := doc.path, answer := doc.answer }

/-- The fields of a node the round-trip claim compares: everything except the
parent pointer. -/
def node_core (p : String × WNode) : String × String × List (String × String) × List String × List String :=
  (p.1, p.2.component_name, p.2.params, p.2.upstream, p.2.downstream)

/-! ## Shared helper: first-occurrence deduplication

`firstOccurFrom l seen` keeps the first occurrence of each element of `l`
not already in `seen`, in order.  Both the prompt-dependency scan and the
citation doc-aggregate loop follow this scheme. -/

def firstOccurFrom : List String → List String → List String
  | [], _ => []
  | x :: xs, seen => if x ∈ seen then firstOccurFrom xs seen
                     else x :: firstOccurFrom xs (x :: seen)

/-! ## Python string semantics

The Python string operations the embedded code uses (`strip`, `lower`,
`startswith`, `split`) are given directly as character-list computations, so
every definition evaluates on concrete inputs. -/

/-- The whitespace characters Python's `str.strip()` removes by default. -/
def is_py_space (c : Char) : Bool :=
  c = ' ' || c = '\t' || c = '\n' || c = '\r' || c = '\x0b' || c = '\x0c'

/-- Python `s.strip()`. -/
def py_strip (s : String) : String :=
  String.mk (((s.data.dropWhile is_py_space).reverse.dropWhile is_py_space).reverse)

/-- Python `s.lower()` (ASCII case fold; the embedded checks compare ASCII
component names and keywords). -/
def py_lower (s : String) : String :=
  String.mk (s.data.map Char.toLower)

/-- Python `s.startswith(pre)`. -/
def py_startswith (s pre : String) : Bool :=
  pre.data.isPrefixOf s.data

def split_on_char (sep : Char) : List Char → List (List Char)
  | [] => [[]]
  | c :: rest =>
    let r := split_on_char sep rest
    if c = sep then [] :: r
    else
      match r with
      | s :: ss => (c :: s) :: ss
      | [] => [[c]]

/-- Python `s.split(sep)` for a one-character separator. -/
def py_split (s : String) (sep : Char) : List String :=
  (split_on_char sep s.data).map String.mk

/-- Python truthiness of an optional string cell (`None` and `""` are falsy). -/
def py_truthy : Option String → Bool
  | none => false
  | some s => s ≠ ""

/-- `Series.astype(str)` rendering of an object cell: `None` renders as the
string "None" (a float NaN would render as "nan"; both are non-blank, which
is all the embedded checks depend on). -/
def astype_str : Option String → String
  | none => "None"
  | some s => s

/-! ## Chat messages and budget fitting (rag/prompts.py `message_fit_in`) -/

structure Msg where
  role : String
  content : String
deriving DecidableEq

/-- The tail-first admission loop of `message_fit_in`: walk the non-system
messages newest-first, adding each message's content length to the running
estimate; once the budget is exceeded stop before admitting the message —
unless nothing has been admitted yet, in which case the newest message is
admitted and the loop stops after it.  `temp` accumulates admitted messages
via insertion at the front, so it ends in original (oldest-first) order. -/
def fit_go (maxL : Nat) : List Msg → Nat → List Msg → List Msg
  | [], _, temp => temp
  | m :: ms, cl, temp =>
    let cl2 := cl + m.content.length
    if cl2 > maxL ∧ temp ≠ [] then temp
    else
      let temp2 := m :: temp
      if cl2 > maxL then temp2 else fit_go maxL ms cl2 temp2

/-- `message_fit_in(messages, max_length)`: a leading system message is
always retained and its length counted first; the rest are admitted by
`fit_go` over the reversed remainder.  Returns the final length estimate and
the fitted list. -/
def message_fit_in (messages : List Msg) (max_length : Nat) : Nat × List Msg :=
  let sys_rem : List Msg × List Msg × Nat :=
    match messages with
    | [] => ([], [], 0)
    | m :: rest =>
      if m.role = "system" then ([m], rest, m.content.length) else ([], messages, 0)
  let fitted := sys_rem.1 ++ fit_go max_length sys_rem.2.1.reverse sys_rem.2.2 []
  (fitted.foldl (fun acc m => acc + m.content.length) 0, fitted)

/-- The candidate-list adjustment of `Generate._prepare_llm_messages` (the
block after assembling system prompt plus history): when the list does not
end in a user turn, a default user turn "Output: " is appended only in the
single-system-message case (or substituted if the list were empty). -/
def adjust_candidates (mtf : List Msg) : List Msg :=
  if mtf = [] ∨ (mtf.getLast?.map Msg.role) ≠ some "user" then
    if mtf.length = 1 ∧ (mtf.head?.map Msg.role) = some "system" then
      mtf ++ [{ role := "user", content := "Output: " }]
    else if mtf = [] then [{ role := "user", content := "Output: " }]
    else mtf
  else mtf

/-- The first step of `Generate._prepare_llm_messages`: pop a trailing
assistant entry from the history window. -/
def drop_trailing_assistant (history : List Msg) : List Msg :=
  match history.getLast? with
  | some m => if m.role = "assistant" then history.dropLast else history
  | none => history

/-- The rest of `Generate._prepare_llm_messages` given the popped window:
the candidate list is adjusted, fitted into `max_length * 0.97` (embedded as
`max_length * 97 / 100`; the source truncates the binary-float product,
which can differ by one character on some lengths — no claim depends on the
exact budget), and the system prompt is split back off.  The two
post-fitting fallbacks of the source (empty fitted list, empty chat history)
are kept verbatim; note the second uses "Output:" without the trailing
space. -/
def prepare_from_window (system_prompt : String) (hist : List Msg)
    (max_length : Nat) : String × List Msg :=
  let mtf := adjust_candidates ({ role := "system", content := system_prompt } :: hist)
  let fitted := (message_fit_in mtf (max_length * 97 / 100)).2
  let fitted := if fitted = [] then [{ role := "user", content := "Output: " }] else fitted
  let split : String × List Msg :=
    match fitted with
    | [] => ("", [])
    | m :: rest => if m.role = "system" then (m.content, rest) else ("", fitted)
  if split.2 = [] then (split.1, split.2 ++ [{ role := "user", content := "Output:" }])
  else split

/-- `Generate._prepare_llm_messages(system_prompt_str, chat_model_max_length)`
given the history window the canvas returns. -/
def prepare_llm_messages (system_prompt : String) (history : List Msg)
    (max_length : Nat) : String × List Msg :=
  prepare_from_window system_prompt (drop_trailing_assistant history) max_length

/-! ## Citation assembly (generate.py `Generate.set_cite`) -/

/-- The Python exceptions the embedded code can raise. -/
inductive PyExn where
  | nameError (msg : String)
  | typeError (msg : String)
  | valueError (msg : String)
deriving DecidableEq

/-- The retrieval DataFrame as `set_cite` inspects it: whether a `chunks`
column exists, and that column's cells (JSON payload strings). -/
structure CiteDF where
  has_chunks : Bool
  chunk_cells : List String
deriving DecidableEq

structure DocAgg where
  doc_id : String
  doc_name : String
deriving DecidableEq

/-- A chunk as decoded from the JSON payload: the fields `set_cite` reads,
each optional because `chunk.get` is used with defaults. -/
structure JChunk where
  doc_id : Option String
  docnm_kwd : Option String
  content : Option String
deriving DecidableEq

structure CiteResult where
  content : String
  ref_chunks : List JChunk
  ref_doc_aggs : List DocAgg
deriving DecidableEq

/-- `structure_answer(conv_id, answer, statistics, token_usage)` from
api/db/services/conversation_service.py: an answer dict that already has a
`content` key is returned unchanged. -/
def structure_answer (res : CiteResult) : CiteResult := res

/-- `Generate.set_cite(retrieval_res_df, answer)`.  The guard returns the
uncited fallback when the `chunks` column is absent, the frame is empty, or
the first payload cell is falsy.  Past the guard the source's try block reads
`retrieval_res["chunks"]` — but the parameter is named `retrieval_res_df` and
no `retrieval_res` exists, so a `NameError` is raised before `json.loads`
ever runs, and the `except (json.JSONDecodeError, IndexError, TypeError)`
handler (and everything after it) is unreachable. -/
def set_cite (df : CiteDF) (answer : String) : Except PyExn CiteResult :=
  if df.has_chunks = false ∨ df.chunk_cells = [] ∨ df.chunk_cells.headD "" = "" then
    .ok (structure_answer { content := answer, ref_chunks := [], ref_doc_aggs := [] })
  else
    .error (.nameError "name 'retrieval_res' is not defined")

/-- The chunk's `doc_id` with the default "unknown_doc_" followed by the
index, as the source's f-string builds it. -/
def did_at (chunks : List JChunk) (i : Nat) : String :=
  match chunks.get? i with
  | some c => c.doc_id.getD ("unknown_doc_" ++ toString i)
  | none => "unknown_doc_" ++ toString i

/-- The chunk's `docnm_kwd` with the default "Unknown Document " followed by
the index. -/
def dname_at (chunks : List JChunk) (i : Nat) : String :=
  match chunks.get? i with
  | some c => c.docnm_kwd.getD ("Unknown Document " ++ toString i)
  | none => "Unknown Document " ++ toString i

/-- `valid_indices = [i for i in idx if isinstance(i, int) and 0 <= i < len(chunks)]`. -/
def valid_indices (chunks : List JChunk) (idx : List Int) : List Int :=
  idx.filter (fun i => 0 ≤ i ∧ i < chunks.length)

/-- The doc-aggregate loop of `set_cite` (its lines walking `valid_indices`):
`doc_ids` is the seen-set, `recall_docs` the output being appended to. -/
def recall_docs_go (chunks : List JChunk) : List Int → List String → List DocAgg → List DocAgg
  | [], _, acc => acc
  | i :: is, doc_ids, acc =>
    let did := did_at chunks i.toNat
    if did ∈ doc_ids then recall_docs_go chunks is doc_ids acc
    else recall_docs_go chunks is (did :: doc_ids)
      (acc ++ [{ doc_id := did, doc_name := dname_at chunks i.toNat }])

/-- The `doc_aggs` list `set_cite` builds from the chunk list and the index
list the citation backend returned (generate.py, the stable-dedup loop; in
the shipped code this loop is unreachable because of the undefined-name
defect recorded at `set_cite`). -/
def set_cite_recall_docs (chunks : List JChunk) (idx : List Int) : List DocAgg :=
  recall_docs_go chunks (valid_indices chunks idx) [] []

/-! ## Template dependency extraction (generate.py `Generate.get_input_elements`)

The regex scans for an opening brace, one or more ASCII letters, a colon or
at-sign, one or more letters/digits/underscore/hyphen, and a closing brace
(case-insensitive); `re.finditer` yields non-overlapping matches left to
right, restarting one character later after a failed start. -/

def is_tail_char (c : Char) : Bool :=
  c.isAlpha || c.isDigit || c = '_' || c = '-'

/-- Try to match the token body right after an opening brace; on success
return the token text (without braces) and the characters after the closing
brace. -/
def match_token (cs : List Char) : Option (String × List Char) :=
  let letters := cs.takeWhile Char.isAlpha
  let rest1 := cs.dropWhile Char.isAlpha
  if letters = [] then none
  else
    match rest1 with
    | c :: rest2 =>
      if c = ':' ∨ c = '@' then
        let tail := rest2.takeWhile is_tail_char
        let rest3 := rest2.dropWhile is_tail_char
        if tail = [] then none
        else
          match rest3 with
          | '}' :: rest4 => some (String.mk (letters ++ c :: tail), rest4)
          | _ => none
      else none
    | [] => none

/-- Fuel-indexed scanner body (fuel at least the character count suffices:
every step consumes at least one character). -/
def token_scan_go : Nat → List Char → List String
  | 0, _ => []
  | _ + 1, [] => []
  | fuel + 1, c :: rest =>
    if c = '{' then
      match match_token rest with
      | some (tok, rest2) => tok :: token_scan_go fuel rest2
      | none => token_scan_go fuel rest
    else token_scan_go fuel rest

/-- All placeholder tokens of a template, in match order. -/
def token_scan (cs : List Char) : List String :=
  token_scan_go cs.length cs

structure InputElem where
  key : String
  name : String
deriving DecidableEq

/-- What the execution engine (an external collaborator, spec section 6)
exposes of a component to `get_input_elements`: `get_component(id)` returns
the component object — here its Begin-style `query` parameter list of
key/name pairs — or nothing, and `get_component_name(id)` returns the name,
empty when unknown (a falsy name makes the scan skip the token). -/
structure CanvasComponent where
  name : String
  query : List (String × String)
deriving DecidableEq

structure Canvas where
  get_component : String → Option CanvasComponent
  get_component_name : String → String

/-- The token loop of `get_input_elements`: `seen` is the `key_set`, `res`
the accumulated element list.  A token starting (case-insensitively) with
"begin@" is split at the at-sign and resolved against the Begin component's
query parameters, appending one element per matching parameter and marking
the token seen only if a match was found; dereferencing a missing component
raises.  Any other token is resolved through `get_component_name` and
skipped when the name is falsy. -/
def gie_go (cv : Canvas) : List String → List String → List InputElem →
    Except PyExn (List InputElem)
  | [], _, res => .ok res
  | t :: ts, seen, res =>
    if t ∈ seen then gie_go cv ts seen res
    else if py_startswith (py_lower t) "begin@" then
      match py_split t '@' with
      | [cpn_id, key] =>
        match cv.get_component cpn_id with
        | none => .error (.typeError "'NoneType' object is not subscriptable")
        | some c =>
          let ms := c.query.filter (fun p => p.1 = key)
          gie_go cv ts (if ms = [] then seen else t :: seen)
            (res ++ ms.map (fun p => { key := t, name := p.2 }))
      | _ => .error (.valueError "unpacking error")
    else
      let nm := cv.get_component_name t
      if nm = "" then gie_go cv ts seen res
      else gie_go cv ts (t :: seen) (res ++ [{ key := t, name := nm }])

/-- `Generate.get_input_elements()`: the literal `user` element first, then
the scanned tokens resolved in order. -/
def get_input_elements (cv : Canvas) (template : String) : Except PyExn (List InputElem) :=
  gie_go cv (token_scan template.data) []
    [{ key := "user", name := "Input your question here:" }]

/-- A scanned token resolves against the engine: a begin-token's component
exists and exactly one query parameter carries its key; any other token has a
non-empty component name. -/
def resolves_in (cv : Canvas) (t : String) : Prop :=
  if py_startswith (py_lower t) "begin@" then
    ∃ cpn_id key c, py_split t '@' = [cpn_id, key] ∧
      cv.get_component cpn_id = some c ∧
      (c.query.filter (fun p => p.1 = key)).length = 1
  else cv.get_component_name t ≠ ""

/-! ## The Generate run paths (generate.py `Generate._run` / `stream_output`)

The chat-model handle built on entry to `_run` is the generation backend,
an external collaborator (spec sections 1 and 6); the run logic is embedded
as a function of the data that handle supplies (its `max_length` budget) and
of the concatenated retrieval DataFrame, and its result records whether the
deferred streaming producer is returned, the empty-retrieval short circuit
fires, or the backend chat call is issued with the prepared messages. -/

/-- A row of the concatenated retrieval-result DataFrame: the `content` and
`empty_response` cells (absent columns are tracked frame-wide below; `none`
is a null cell). -/
structure RRow where
  content : Option String
  empty_response : Option String
deriving DecidableEq

structure RetrDF where
  has_content : Bool
  has_empty_response : Bool
  rows : List RRow
deriving DecidableEq

/-- `is_retrieval_empty`: the frame is empty, has no `content` column, all
content cells are null, or no cell of `content.astype(str).str.strip()` is
truthy.  A null cell renders as "None" under `astype(str)`, so a null never
counts as blank in the last disjunct. -/
def is_retrieval_empty (df : RetrDF) : Bool :=
  df.rows.isEmpty || !df.has_content ||
  df.rows.all (fun r => r.content.isNone) ||
  !(df.rows.any (fun r => py_strip (astype_str r.content) ≠ ""))

/-- `retrieval_has_specific_empty_response`: non-empty frame, an
`empty_response` column, and a truthy first cell. -/
def has_specific_empty_response (df : RetrDF) : Bool :=
  !df.rows.isEmpty && df.has_empty_response &&
  py_truthy ((df.rows.head?.map RRow.empty_response).getD none)

/-- `str(retrieval_res_df["empty_response"].iloc[0])` when present. -/
def first_empty_response (df : RetrDF) : String :=
  ((df.rows.head?.map RRow.empty_response).getD none).getD ""

/-- The message of the non-streaming short circuit. -/
def sync_empty_message (df : RetrDF) : String :=
  if has_specific_empty_response df then first_empty_response df
  else "Nothing found in knowledgebase (mock response)."

/-- The message of the streaming short circuit. -/
def stream_empty_message (df : RetrDF) : String :=
  if has_specific_empty_response df then first_empty_response df
  else "Nothing found in knowledgebase (mock stream response)."

/-- A result row `content, reference` as `be_output` and the short circuit
build it (the reference list is empty on these paths). -/
structure GRow where
  content : String
  reference : List String
deriving DecidableEq

inductive GenOutcome where
  | deferredStream : GenOutcome
  | emptyShortCircuit (row : GRow) : GenOutcome
  | invokeLLM (system : String) (chat : List Msg) : GenOutcome
deriving DecidableEq

/-- `Generate._run` from the streaming decision on: return the deferred
producer when streaming was requested, exactly one downstream successor
exists and it is an answer-type stage; otherwise short-circuit on empty
retrieval with a single `content, reference := empty` row; otherwise prepare
the messages and issue the backend chat call.  `cpn_name_of` is the engine's
component-name lookup for the successor check. -/
def generate_run (stream_requested : Bool) (downstreams : List String)
    (cpn_name_of : String → String) (df : RetrDF) (final_prompt : String)
    (max_length : Nat) (history : List Msg) : GenOutcome :=
  if stream_requested = true ∧ downstreams.length = 1 ∧
      py_lower (cpn_name_of (downstreams.headD "")) = "answer" then
    .deferredStream
  else if is_retrieval_empty df then
    .emptyShortCircuit { content := sync_empty_message df, reference := [] }
  else
    let sm := prepare_llm_messages final_prompt history max_length
    .invokeLLM sm.1 sm.2

inductive StreamOutcome where
  | emptyYield (row : GRow) : StreamOutcome
  | streamLLM (system : String) (chat : List Msg) : StreamOutcome
deriving DecidableEq

/-- `Generate.stream_output` up to its backend invocation: the same empty
check yields the single short-circuit row (also committed as the stage
output) and returns; otherwise the prepared messages go to the streaming
chat call. -/
def stream_output (df : RetrDF) (final_prompt : String) (max_length : Nat)
    (history : List Msg) : StreamOutcome :=
  if is_retrieval_empty df then
    .emptyYield { content := stream_empty_message df, reference := [] }
  else
    let sm := prepare_llm_messages final_prompt history max_length
    .streamLLM sm.1 sm.2

/-- The claim-side reading of "the concatenated outputs contain no non-blank
content value": every present (non-null) content cell strips to the empty
string. -/
def no_nonblank_content (df : RetrDF) : Prop :=
  ∀ r ∈ df.rows, ∀ s, r.content = some s → py_strip s = ""

/-- The amended trigger of the short circuit: empty frame, no content
column, all cells null, or all cells blank strings (a mixture of nulls and
blank strings does not trigger it). -/
def amended_empty (df : RetrDF) : Prop :=
  df.rows = [] ∨ df.has_content = false ∨
  (∀ r ∈ df.rows, r.content = none) ∨
  (∀ r ∈ df.rows, ∃ s, r.content = some s ∧ py_strip s = "")

/-- The claim-side reading of "the retrieval output's empty_response is
present": non-empty frame with the column and a non-empty first cell. -/
def claims_empty_response (df : RetrDF) : Prop :=
  df.rows ≠ [] ∧ df.has_empty_response = true ∧
  ∃ s, (df.rows.head?.map RRow.empty_response).getD none = some s ∧ s ≠ ""

/-! ## Retrieval fan-in (agent/component/retrieval.py `Retrieval._run`) -/

/-- A chunk of the merged `kbinfos` list (the fields the synthetic
knowledge-graph chunk and the web-search chunks carry). -/
structure KChunk where
  content : String
  doc_id : String
  docnm_kwd : String
  content_with_weight : Bool
deriving DecidableEq

/-- The outcome of the external web-search collaborator's
`retrieve_chunks(query, max_results)`: a chunk/doc-agg payload, or an
arbitrary raised exception (spec section 6 collaborator). -/
inductive TavOutcome where
  | ok (chunks : List KChunk) (doc_aggs : List DocAgg) : TavOutcome
  | exn (msg : String) : TavOutcome
deriving DecidableEq

structure RetParams where
  use_kg : Bool
  tavily_api_key : String
  top_n : Nat
  empty_response : String
deriving DecidableEq

/-- The synthetic knowledge-graph chunk inserted at position 0 when `use_kg`
is set. -/
def kg_chunk (query : String) : KChunk :=
  { content := "Mock Knowledge Graph result for '" ++ query ++ "'.",
    doc_id := "kg_mock_doc", docnm_kwd := "Mock KG Document",
    content_with_weight := true }

/-- Modelled from the spec: `ComponentBase.be_output` (agent/component/base.py
is not under src/); spec section 4.2 fixes it as the canonical helper
constructing a one-row result of the content with an empty reference list. -/
def be_output (content : String) : List GRow :=
  [{ content := content, reference := [] }]

/-- `Retrieval._run` given the preprocessed query and the web-search
collaborator's behaviour.  The knowledge-graph chunk is prepended when
enabled; the web search is attempted only when an API key is configured and
any exception from it is caught and logged, keeping the chunks already
accumulated.  An empty merged list returns `be_output` of the configured
`empty_response` (blank unless non-blank after stripping).  A non-empty list
reaches `pd.DataFrame(dict(content=..., chunks=...))` whose values are both
plain strings — pandas raises `ValueError` for an all-scalar dict without an
index (the mocked `kb_prompt` returns a single string rather than a list),
so this branch raises before returning. -/
def retrieval_run (p : RetParams) (query : String) (tav : TavOutcome) :
    Except PyExn (List GRow) :=
  let kg_chunks : List KChunk := if p.use_kg then [kg_chunk query] else []
  let tav_chunks : List KChunk :=
    if p.tavily_api_key ≠ "" then
      match tav with
      | .ok cs _ => cs
      | .exn _ => []
    else []
  let chunks := kg_chunks ++ tav_chunks
  if chunks = [] then
    .ok (be_output (if p.empty_response ≠ "" ∧ py_strip p.empty_response ≠ ""
                    then p.empty_response else ""))
  else
    .error (.valueError "If using all scalar values, you must pass an index")

/-- Decidable equality on `Except`, for evaluating the embedded fallible
functions at concrete inputs. -/
instance exceptDecidableEq {ε α : Type} [DecidableEq ε] [DecidableEq α] :
    DecidableEq (Except ε α) := fun a b =>
  match a, b with
  | .ok x, .ok y =>
    if h : x = y then isTrue (by rw [h]) else isFalse (fun hc => h (Except.ok.inj hc))
  | .error x, .error y =>
    if h : x = y then isTrue (by rw [h]) else isFalse (fun hc => h (Except.error.inj hc))
  | .ok _, .error _ => isFalse (fun hc => Except.noConfusion hc)
  | .error _, .ok _ => isFalse (fun hc => Except.noConfusion hc)

/-! ## Concrete fixtures used by counterexamples and witnesses -/

/-- A retrieval frame mixing a null content cell with a blank content cell. -/
def df_mixed : RetrDF :=
  { has_content := true, has_empty_response := false,
    rows := [{ content := none, empty_response := none },
             { content := some "", empty_response := none }] }

/-- A retrieval frame whose single content cell is blank and whose first row
carries a configured `empty_response`. -/
def df_blank_custom : RetrDF :=
  { has_content := true, has_empty_response := true,
    rows := [{ content := some " ", empty_response := some "Custom empty." }] }

/-- A rowless retrieval frame (no retrieval stage contributed anything). -/
def df_empty_frame : RetrDF :=
  { has_content := true, has_empty_response := false, rows := [] }

/-- An engine in which no component resolves. -/
def canvas_empty : Canvas :=
  { get_component := fun _ => none, get_component_name := fun _ => "" }

/-- An engine in which every component name resolves to a fixed non-empty
name (no begin components). -/
def canvas_kb : Canvas :=
  { get_component := fun _ => none, get_component_name := fun _ => "KB Retrieval" }

/-- A template that names the same placeholder token twice (the braces are
written as character escapes). -/
def template_kb : String := "\x7bkb:docs\x7d and then \x7bkb:docs\x7d again"

/-! # Theorems -/

/-! ## Claim C1 — citation assembly on missing, empty or undecodable chunks -/

/-- Claim C1 (code_bug evaluation): with the `chunks` column missing or its
first payload falsy, `set_cite` returns the uncited fallback with the answer
text unchanged; but a present, truthy payload — whether undecodable text or
a decodable empty list — passes the guard and raises `NameError` at the
undefined name `retrieval_res`, so "never raises an exception" fails for the
not-JSON-decodable (and decoded-empty) cases. -/
theorem claim_C1_set_cite_eval :
    set_cite { has_chunks := false, chunk_cells := [] } "The answer."
      = .ok { content := "The answer.", ref_chunks := [], ref_doc_aggs := [] } ∧
    set_cite { has_chunks := true, chunk_cells := [] } "The answer."
      = .ok { content := "The answer.", ref_chunks := [], ref_doc_aggs := [] } ∧
    set_cite { has_chunks := true, chunk_cells := [""] } "The answer."
      = .ok { content := "The answer.", ref_chunks := [], ref_doc_aggs := [] } ∧
    set_cite { has_chunks := true, chunk_cells := ["not json"] } "The answer."
      = .error (.nameError "name 'retrieval_res' is not defined") ∧
    set_cite { has_chunks := true, chunk_cells := ["[]"] } "The answer."
      = .error (.nameError "name 'retrieval_res' is not defined") := by
  refine ⟨?_, ?_, ?_, ?_, ?_⟩ <;> decide

/-! ## Claim C6 — stable deduplication of doc_aggs -/

theorem mem_firstOccurFrom {y : String} :
    ∀ {xs seen : List String}, y ∈ firstOccurFrom xs seen ↔ y ∈ xs ∧ y ∉ seen
  | [], seen => by simp [firstOccurFrom]
  | x :: xs, seen => by
    by_cases hx : x ∈ seen
    · rw [firstOccurFrom, if_pos hx, mem_firstOccurFrom]
      constructor
      · rintro ⟨h1, h2⟩
        exact ⟨List.mem_cons_of_mem _ h1, h2⟩
      · rintro ⟨h1, h2⟩
        rcases List.mem_cons.mp h1 with rfl | h1
        · exact absurd hx h2
        · exact ⟨h1, h2⟩
    · rw [firstOccurFrom, if_neg hx]
      constructor
      · intro h
        rcases List.mem_cons.mp h with rfl | h
        · exact ⟨List.mem_cons_self _ _, hx⟩
        · rcases mem_firstOccurFrom.mp h with ⟨h1, h2⟩
          refine ⟨List.mem_cons_of_mem _ h1, fun hy => h2 (List.mem_cons_of_mem _ hy)⟩
      · rintro ⟨h1, h2⟩
        rcases List.mem_cons.mp h1 with rfl | h1
        · exact List.mem_cons_self _ _
        · by_cases hyx : y = x
          · subst hyx; exact List.mem_cons_self _ _
          · exact List.mem_cons_of_mem _ (mem_firstOccurFrom.mpr
              ⟨h1, fun hy => (List.mem_cons.mp hy).elim hyx h2⟩)

theorem nodup_firstOccurFrom : ∀ (xs seen : List String), (firstOccurFrom xs seen).Nodup
  | [], _ => by simp [firstOccurFrom]
  | x :: xs, seen => by
    by_cases hx : x ∈ seen
    · rw [firstOccurFrom, if_pos hx]
      exact nodup_firstOccurFrom xs seen
    · rw [firstOccurFrom, if_neg hx]
      refine List.nodup_cons.mpr ⟨fun hmem => ?_, nodup_firstOccurFrom xs (x :: seen)⟩
      exact (mem_firstOccurFrom.mp hmem).2 (List.mem_cons_self _ _)

theorem recall_docs_go_spec (chunks : List JChunk) :
    ∀ (l : List Int) (seen : List String) (acc : List DocAgg),
      (recall_docs_go chunks l seen acc).map DocAgg.doc_id
        = acc.map DocAgg.doc_id
          ++ firstOccurFrom (l.map (fun i => did_at chunks i.toNat)) seen
  | [], seen, acc => by simp [recall_docs_go, firstOccurFrom]
  | i :: l, seen, acc => by
    by_cases hd : did_at chunks i.toNat ∈ seen
    · rw [recall_docs_go, if_pos hd, recall_docs_go_spec chunks l seen acc]
      simp [firstOccurFrom, hd]
    · rw [recall_docs_go, if_neg hd, recall_docs_go_spec chunks l _ _]
      simp [firstOccurFrom, hd]

/-- Claim C6: for every chunk list and every index list returned by the
citation backend, the doc-aggregate list built by the citation assembly loop
of `set_cite` lists exactly the document ids of the valid used indices, each
exactly once, in order of first appearance. -/
theorem claim_C6_doc_aggs_dedup (chunks : List JChunk) (idx : List Int) :
    (set_cite_recall_docs chunks idx).map DocAgg.doc_id
      = firstOccurFrom ((valid_indices chunks idx).map (fun i => did_at chunks i.toNat)) []
    ∧ ((set_cite_recall_docs chunks idx).map DocAgg.doc_id).Nodup := by
  have h := recall_docs_go_spec chunks (valid_indices chunks idx) [] []
  rw [set_cite_recall_docs]
  constructor
  · simpa using h
  · rw [h]
    simpa using nodup_firstOccurFrom ((valid_indices chunks idx).map (fun i => did_at chunks i.toNat)) []

/-- Claim C6 witness: two chunks of the same document used twice produce a
single doc-aggregate entry. -/
theorem claim_C6_witness :
    (set_cite_recall_docs
        [{ doc_id := some "d1", docnm_kwd := some "na", content := none },
         { doc_id := some "d1", docnm_kwd := some "nb", content := none },
         { doc_id := some "d2", docnm_kwd := none, content := none }]
        [0, 1, 2, 0, -1, 7]).map DocAgg.doc_id = ["d1", "d2"] := by
  have h := (claim_C6_doc_aggs_dedup
      [{ doc_id := some "d1", docnm_kwd := some "na", content := none },
       { doc_id := some "d1", docnm_kwd := some "nb", content := none },
       { doc_id := some "d2", docnm_kwd := none, content := none }]
      [0, 1, 2, 0, -1, 7]).1
  rw [h]; decide

/-! ## Claim C7 — web-search failure isolation in the Retrieval stage -/

/-- Claim C7 (code_bug evaluation): an exception from the web-search source
never propagates out of `Retrieval._run` — with no other source the stage
returns the configured `empty_response` (blank when only whitespace) — but
when the knowledge-graph source had already contributed a chunk the
continuation does not return a result built from the accumulated chunks: it
raises pandas' all-scalar `ValueError` while building the output frame. -/
theorem claim_C7_retrieval_eval :
    retrieval_run ⟨false, "tav-key", 8, "Sorry, nothing found."⟩ "q" (.exn "boom")
      = .ok [{ content := "Sorry, nothing found.", reference := [] }] ∧
    retrieval_run ⟨false, "tav-key", 8, "   "⟩ "q" (.exn "boom")
      = .ok [{ content := "", reference := [] }] ∧
    retrieval_run ⟨true, "tav-key", 8, "Sorry, nothing found."⟩ "q" (.exn "boom")
      = .error (.valueError "If using all scalar values, you must pass an index") := by
  refine ⟨?_, ?_, ?_⟩ <;> decide

/-! ## Claim C9 — wire-format round trip -/

/-- Claim C9: serializing any workflow graph with `to_dsl_dict` and reading
the document back with the spec-modelled `from_document` yields a graph with
an identical node set and identical per-node component name, parameters and
upstream/downstream edges. -/
theorem claim_C9_roundtrip (w : Workflow) :
    (from_document (to_dsl_dict w)).nodes.map node_core = w.nodes.map node_core := by
  simp only [from_document, to_dsl_dict, node_to_dsl, List.map_map]
  apply List.map_congr_left
  intro p _
  rfl

/-! ## Claim C3 — the chat history handed to the backend is never empty -/

theorem fit_go_ne_nil (maxL : Nat) :
    ∀ (ms : List Msg) (cl : Nat) (temp : List Msg),
      ms ≠ [] ∨ temp ≠ [] → fit_go maxL ms cl temp ≠ []
  | [], cl, temp, h => by
    rcases h with h | h
    · exact absurd rfl h
    · simpa [fit_go] using h
  | m :: ms, cl, temp, h => by
    rw [fit_go]
    by_cases hc : cl + m.content.length > maxL ∧ temp ≠ []
    · rw [if_pos hc]; exact hc.2
    · rw [if_neg hc]
      by_cases hb : cl + m.content.length > maxL
      · simp only [if_pos hb]; exact List.cons_ne_nil m temp
      · simp only [if_neg hb]
        exact fit_go_ne_nil maxL ms (cl + m.content.length) (m :: temp)
          (Or.inr (List.cons_ne_nil m temp))

theorem message_fit_in_system (sys : Msg) (rest : List Msg) (b : Nat)
    (hs : sys.role = "system") (hr : rest ≠ []) :
    ∃ temp, (message_fit_in (sys :: rest) b).2 = sys :: temp ∧ temp ≠ [] := by
  refine ⟨fit_go b rest.reverse sys.content.length [], ?_, ?_⟩
  · simp [message_fit_in, hs]
  · exact fit_go_ne_nil b rest.reverse sys.content.length []
      (Or.inl (by simpa using hr))

theorem adjust_candidates_spec (s : String) (hist : List Msg) :
    ∃ rest, adjust_candidates ({ role := "system", content := s } :: hist)
        = { role := "system", content := s } :: rest ∧ rest ≠ [] := by
  cases hist with
  | nil =>
    refine ⟨[{ role := "user", content := "Output: " }], ?_, by simp⟩
    simp [adjust_candidates]
  | cons h hs =>
    obtain ⟨m, hm⟩ : ∃ m, (h :: hs).getLast? = some m := by
      cases e : (h :: hs).getLast? with
      | some m => exact ⟨m, rfl⟩
      | none => simp at e
    have hlast : ({ role := "system", content := s } :: h :: hs : List Msg).getLast?
        = some m := by rw [List.getLast?_cons_cons]; exact hm
    refine ⟨h :: hs, ?_, by simp⟩
    by_cases hu : m.role = "user"
    · rw [adjust_candidates, if_neg]
      simp [hlast, hu]
    · rw [adjust_candidates, if_pos, if_neg, if_neg] <;> simp [hlast, hu]

theorem prepare_from_window_eq (s : String) (hist : List Msg) (L : Nat) :
    ∃ chat, prepare_from_window s hist L = (s, chat) ∧ chat ≠ [] := by
  obtain ⟨rest, hadj, hrest⟩ := adjust_candidates_spec s hist
  obtain ⟨temp, hfit, htemp⟩ :=
    message_fit_in_system { role := "system", content := s } rest (L * 97 / 100) rfl hrest
  refine ⟨temp, ?_, htemp⟩
  rw [prepare_from_window, hadj, hfit]
  simp [htemp]

/-- Claim C3 (amended): for every system prompt, history window and budget,
the chat history handed to the generation backend is non-empty and the
system prompt is carried through; when the (assistant-trimmed) window is
empty the single default user turn "Output: " is what the backend receives —
but an all-assistant window is passed through without any user-role turn, so
"at least one user-role message" does not hold in general. -/
theorem claim_C3_amended (s : String) (history : List Msg) (L : Nat) :
    0 < (prepare_llm_messages s history L).2.length ∧
    (prepare_llm_messages s history L).1 = s ∧
    (prepare_llm_messages s [] L).2 = [{ role := "user", content := "Output: " }] := by
  obtain ⟨chat, heq, hne⟩ := prepare_from_window_eq s (drop_trailing_assistant history) L
  refine ⟨?_, ?_, ?_⟩
  · rw [prepare_llm_messages, heq]
    simpa [List.length_pos] using hne
  · rw [prepare_llm_messages, heq]
  · rw [prepare_llm_messages]
    have hwin : drop_trailing_assistant ([] : List Msg) = [] := by
      simp [drop_trailing_assistant]
    rw [hwin, prepare_from_window]
    have hadj : adjust_candidates [{ role := "system", content := s }]
        = [{ role := "system", content := s }, { role := "user", content := "Output: " }] := by
      simp [adjust_candidates]
    rw [hadj]
    simp [message_fit_in, fit_go]

/-- Claim C3 witness: the non-emptiness and default-turn substitution at a
concrete input. -/
theorem claim_C3_witness :
    0 < (prepare_llm_messages "You are an assistant." [] 4096).2.length ∧
    (prepare_llm_messages "You are an assistant." [] 4096).2
      = [{ role := "user", content := "Output: " }] := by
  have h := claim_C3_amended "You are an assistant." [] 4096
  exact ⟨h.1, h.2.2⟩

/-- Claim C3 counterexample: a history window of two assistant turns reaches
the backend as a single assistant turn — non-empty, but with no user-role
message, refuting "the backend always receives at least one user-role
message". -/
theorem claim_C3_counterexample :
    prepare_llm_messages "sys" [{ role := "assistant", content := "a" },
        { role := "assistant", content := "b" }] 4096
      = ("sys", [{ role := "assistant", content := "a" }]) ∧
    ((prepare_llm_messages "sys" [{ role := "assistant", content := "a" },
        { role := "assistant", content := "b" }] 4096).2.all
      (fun m => m.role ≠ "user")) = true := by
  refine ⟨by decide, by decide⟩

/-! ## Claim C5 — the streaming decision -/

/-- Claim C5: `Generate._run` returns the deferred streaming producer
exactly when streaming was requested, there is exactly one downstream
successor, and that successor's component name is the answer type (lowered);
in every other case it proceeds synchronously (short circuit or backend
call). -/
theorem claim_C5_streaming_decision (stream : Bool) (ds : List String)
    (nm : String → String) (df : RetrDF) (sp : String) (L : Nat) (h : List Msg) :
    generate_run stream ds nm df sp L h = GenOutcome.deferredStream ↔
      stream = true ∧ ∃ d, ds = [d] ∧ py_lower (nm d) = "answer" := by
  rw [generate_run]
  by_cases hc : stream = true ∧ ds.length = 1 ∧ py_lower (nm (ds.headD "")) = "answer"
  · rw [if_pos hc]
    obtain ⟨h1, h2, h3⟩ := hc
    obtain ⟨d, rfl⟩ := List.length_eq_one.mp h2
    simp only [List.headD_cons] at h3
    simp [h1, h3]
  · rw [if_neg hc]
    constructor
    · intro hcontra
      by_cases he : is_retrieval_empty df = true
      · rw [if_pos he] at hcontra; exact GenOutcome.noConfusion hcontra
      · rw [if_neg he] at hcontra; exact GenOutcome.noConfusion hcontra
    · rintro ⟨h1, d, rfl, h3⟩
      exact absurd ⟨h1, rfl, by simpa using h3⟩ hc

/-- Claim C5 witness: streaming requested towards a single answer successor
returns the deferred producer. -/
theorem claim_C5_witness :
    generate_run true ["ans0"] (fun _ => "Answer")
      { has_content := true, has_empty_response := false, rows := [] } "p" 4096 []
      = GenOutcome.deferredStream := by
  exact (claim_C5_streaming_decision true ["ans0"] (fun _ => "Answer")
      { has_content := true, has_empty_response := false, rows := [] } "p" 4096 []).mpr
    ⟨rfl, "ans0", rfl, by decide⟩

/-! ## Claim C2 — empty-retrieval short circuit -/

theorem strip_astype_eq_empty (o : Option String) :
    py_strip (astype_str o) = "" ↔ ∃ s, o = some s ∧ py_strip s = "" := by
  cases o with
  | none =>
    simp only [astype_str]
    constructor
    · intro h; exact absurd h (by decide)
    · rintro ⟨s, hs, _⟩; exact Option.noConfusion hs
  | some s => simp [astype_str]

theorem any_nonblank_false (rows : List RRow) :
    (rows.any fun r => py_strip (astype_str r.content) ≠ "") = false
      ↔ ∀ r ∈ rows, ∃ s, r.content = some s ∧ py_strip s = "" := by
  induction rows with
  | nil => simp
  | cons r rs ih =>
    rw [List.any_cons, Bool.or_eq_false_iff, List.forall_mem_cons, ih,
      decide_eq_false_iff_not, not_ne_iff, strip_astype_eq_empty]

theorem amended_empty_iff (df : RetrDF) :
    amended_empty df ↔ is_retrieval_empty df = true := by
  rw [amended_empty, is_retrieval_empty]
  simp only [Bool.or_eq_true, List.isEmpty_iff, Bool.not_eq_true', List.all_eq_true,
    Option.isNone_iff_eq_none, any_nonblank_false]
  tauto

theorem claims_empty_response_iff (df : RetrDF) :
    claims_empty_response df ↔ has_specific_empty_response df = true := by
  rw [claims_empty_response, has_specific_empty_response]
  cases e : df.rows with
  | nil => simp [e, py_truthy]
  | cons a l =>
    cases ea : a.empty_response with
    | none => simp [e, ea, py_truthy]
    | some s => simp [e, ea, py_truthy]

/-- Claim C2 (amended): the short circuit fires exactly when the
concatenated retrieval frame is empty, lacks a content column, has all
content cells null, or has all content cells blank strings — a mixture of
nulls and blank strings does not fire it, because a null stringifies to
"None" under `astype(str)` and so counts as non-blank.  When it fires, the
synchronous path returns the single row with an empty reference and the
streaming path yields it, the backend is not invoked on either path, and the
content is the first row's truthy `empty_response` when present, otherwise
each path's own built-in default phrase (the two phrases differ).  When it
does not fire, both paths invoke the backend. -/
theorem claim_C2_amended (df : RetrDF) (ds : List String) (nm : String → String)
    (sp : String) (L : Nat) (h : List Msg) :
    (amended_empty df ↔ is_retrieval_empty df = true) ∧
    (amended_empty df →
      generate_run false ds nm df sp L h
          = .emptyShortCircuit { content := sync_empty_message df, reference := [] } ∧
      stream_output df sp L h
          = .emptyYield { content := stream_empty_message df, reference := [] }) ∧
    (¬ amended_empty df →
      (∃ s2 ms, generate_run false ds nm df sp L h = .invokeLLM s2 ms) ∧
      (∃ s2 ms, stream_output df sp L h = .streamLLM s2 ms)) ∧
    (claims_empty_response df →
      sync_empty_message df = first_empty_response df ∧
      stream_empty_message df = first_empty_response df) ∧
    (¬ claims_empty_response df →
      sync_empty_message df = "Nothing found in knowledgebase (mock response)." ∧
      stream_empty_message df = "Nothing found in knowledgebase (mock stream response).") := by
  refine ⟨amended_empty_iff df, ?_, ?_, ?_, ?_⟩
  · intro hemp
    have he := (amended_empty_iff df).mp hemp
    constructor
    · rw [generate_run, if_neg (by simp), if_pos he]
    · rw [stream_output, if_pos he]
  · intro hemp
    have he : ¬ is_retrieval_empty df = true := fun hc =>
      hemp ((amended_empty_iff df).mpr hc)
    constructor
    · exact ⟨_, _, by rw [generate_run, if_neg (by simp), if_neg he]⟩
    · exact ⟨_, _, by rw [stream_output, if_neg he]⟩
  · intro her
    have he := (claims_empty_response_iff df).mp her
    exact ⟨by rw [sync_empty_message, if_pos he], by rw [stream_empty_message, if_pos he]⟩
  · intro her
    have he : ¬ has_specific_empty_response df = true := fun hc =>
      her ((claims_empty_response_iff df).mpr hc)
    exact ⟨by rw [sync_empty_message, if_neg he], by rw [stream_empty_message, if_neg he]⟩

/-- Claim C2 witness: a frame whose only content cell is a blank string and
whose first row carries a custom `empty_response` short-circuits on both
paths with that configured message and an empty reference. -/
theorem claim_C2_witness :
    generate_run false [] (fun _ => "") df_blank_custom "p" 4096 []
      = .emptyShortCircuit { content := "Custom empty.", reference := [] } ∧
    stream_output df_blank_custom "p" 4096 []
      = .emptyYield { content := "Custom empty.", reference := [] } := by
  have h := (claim_C2_amended df_blank_custom [] (fun _ => "") "p" 4096 []).2.1
    (by
      refine Or.inr (Or.inr (Or.inr ?_))
      intro r hr
      rcases List.mem_singleton.mp hr with rfl
      exact ⟨" ", rfl, by decide⟩)
  have hsync : sync_empty_message df_blank_custom = "Custom empty." := by decide
  have hstream : stream_empty_message df_blank_custom = "Custom empty." := by decide
  rw [hsync] at h
  rw [hstream] at h
  exact h

/-- Claim C2 counterexample: a frame mixing a null content cell with a blank
content cell has no non-blank content value, yet the backend is invoked
instead of short-circuiting; and on a genuinely empty frame the two paths'
built-in default phrases are not identical. -/
theorem claim_C2_counterexample :
    no_nonblank_content df_mixed ∧
    generate_run false [] (fun _ => "") df_mixed "p" 4096 []
      = .invokeLLM "p" [{ role := "user", content := "Output: " }] ∧
    generate_run false [] (fun _ => "") df_empty_frame "p" 4096 []
      = .emptyShortCircuit
          { content := "Nothing found in knowledgebase (mock response).", reference := [] } ∧
    stream_output df_empty_frame "p" 4096 []
      = .emptyYield
          { content := "Nothing found in knowledgebase (mock stream response).", reference := [] } := by
  refine ⟨?_, by decide, by decide, by decide⟩
  intro r hr s hs
  rw [df_mixed] at hr
  rcases List.mem_cons.mp hr with rfl | hr
  · exact Option.noConfusion hs
  · rcases List.mem_singleton.mp hr with rfl
    cases Option.some.inj hs
    decide



/-! ## Claim C4 — dependency extraction from templates -/

theorem gie_go_spec (cv : Canvas) :
    ∀ (ts seen : List String) (res : List InputElem),
      (∀ t ∈ ts, resolves_in cv t) →
      ∃ l, gie_go cv ts seen res = .ok l ∧
        l.map InputElem.key = res.map InputElem.key ++ firstOccurFrom ts seen
  | [], seen, res, _ => ⟨res, by simp [gie_go, firstOccurFrom]⟩
  | t :: ts, seen, res, hres => by
    have htail : ∀ x ∈ ts, resolves_in cv x :=
      fun x hx => hres x (List.mem_cons_of_mem _ hx)
    have hre := hres t (List.mem_cons_self _ _)
    by_cases hseen : t ∈ seen
    · obtain ⟨l, hok, hkey⟩ := gie_go_spec cv ts seen res htail
      refine ⟨l, ?_, ?_⟩
      · rw [gie_go, if_pos hseen]; exact hok
      · rw [hkey, firstOccurFrom, if_pos hseen]
    · rw [resolves_in] at hre
      by_cases hb : py_startswith (py_lower t) "begin@"
      · rw [if_pos hb] at hre
        obtain ⟨cpn_id, key, c, hsplit, hcomp, hlen⟩ := hre
        obtain ⟨p, hp⟩ := List.length_eq_one.mp hlen
        obtain ⟨l, hok, hkey⟩ := gie_go_spec cv ts (t :: seen)
          (res ++ [{ key := t, name := p.2 }]) htail
        refine ⟨l, ?_, ?_⟩
        · rw [gie_go, if_neg hseen, if_pos hb]
          simp only [hsplit, hcomp, hp]
          simpa using hok
        · rw [hkey, firstOccurFrom, if_neg hseen]
          simp
      · rw [if_neg hb] at hre
        obtain ⟨l, hok, hkey⟩ := gie_go_spec cv ts (t :: seen)
          (res ++ [{ key := t, name := cv.get_component_name t }]) htail
        refine ⟨l, ?_, ?_⟩
        · rw [gie_go, if_neg hseen, if_neg hb, if_neg hre]
          exact hok
        · rw [hkey, firstOccurFrom, if_neg hseen]
          simp

/-- Claim C4 (amended): for every template and engine in which every scanned
token resolves (begin-parameters found exactly once; other tokens with a
non-empty component name), `get_input_elements` returns the literal `user`
element as element zero followed by exactly the resolvable tokens in
first-occurrence order with no repeats, however often each token reappears.
Tokens that do not resolve are silently skipped, which is what the
counterexample exhibits. -/
theorem claim_C4_amended (cv : Canvas) (template : String)
    (hres : ∀ t ∈ token_scan template.data, resolves_in cv t) :
    ∃ l, get_input_elements cv template = .ok l ∧
      l.map InputElem.key = "user" :: firstOccurFrom (token_scan template.data) [] ∧
      (firstOccurFrom (token_scan template.data) []).Nodup := by
  obtain ⟨l, hok, hkey⟩ := gie_go_spec cv (token_scan template.data) []
    [{ key := "user", name := "Input your question here:" }] hres
  exact ⟨l, hok, by simpa using hkey, nodup_firstOccurFrom _ _⟩

/-- Claim C4 witness: a duplicated token resolving against the engine is
returned once, after the `user` element. -/
theorem claim_C4_witness :
    ∃ l, get_input_elements canvas_kb template_kb = .ok l ∧
      l.map InputElem.key = ["user", "kb:docs"] := by
  obtain ⟨l, hok, hkey, -⟩ := claim_C4_amended canvas_kb template_kb (by
    intro t ht
    have he : token_scan template_kb.data = ["kb:docs", "kb:docs"] := by decide
    rw [he] at ht
    have hnb : ¬ (py_startswith (py_lower "kb:docs") "begin@" = true) := by decide
    rcases List.mem_cons.mp ht with rfl | ht
    · rw [resolves_in, if_neg hnb]; decide
    · rcases List.mem_singleton.mp ht with rfl
      rw [resolves_in, if_neg hnb]; decide)
  refine ⟨l, hok, ?_⟩
  rw [hkey]
  decide

/-- Claim C4 counterexample: a token whose component the engine does not
know is dropped from the returned elements, so the claim's "followed by the
tokens in first-occurrence order" fails as stated. -/
theorem claim_C4_counterexample :
    get_input_elements canvas_empty "\x7bkb:docs\x7d"
      = .ok [{ key := "user", name := "Input your question here:" }] ∧
    ([{ key := "user", name := "Input your question here:" }] : List InputElem).map InputElem.key
      ≠ ["user", "kb:docs"] := by
  exact ⟨by decide, by decide⟩




/-! ## Association-list lemmas for the workflow node mapping -/

theorem lookup_updateNode (k : String) (f : WNode → WNode) :
    ∀ (ns : NodeList) (j : String),
      lookupNode (updateNode k f ns) j
        = if j = k then (lookupNode ns k).map f else lookupNode ns j
  | [], j => by
    simp only [updateNode, lookupNode]
    split <;> rfl
  | p :: rest, j => by
    by_cases hpk : p.1 = k
    · by_cases hpj : p.1 = j
      · subst hpk; subst hpj
        simp [updateNode, lookupNode]
      · subst hpk
        have hjp : ¬ j = p.1 := fun h => hpj h.symm
        simp [updateNode, lookupNode, hpj, hjp, lookup_updateNode p.1 f rest j]
    · by_cases hpj : p.1 = j
      · subst hpj
        have hjk : ¬ p.1 = k := hpk
        simp [updateNode, lookupNode, hpk, hjk]
      · simp [updateNode, lookupNode, hpk, hpj, lookup_updateNode k f rest j]

theorem isSome_lookup_updateNode (k : String) (f : WNode → WNode)
    (ns : NodeList) (j : String) :
    (lookupNode (updateNode k f ns) j).isSome = (lookupNode ns j).isSome := by
  rw [lookup_updateNode]
  split
  · rename_i hjk
    subst hjk
    cases lookupNode ns j <;> rfl
  · rfl

theorem lookup_eraseNode (k : String) :
    ∀ (ns : NodeList) (j : String),
      lookupNode (eraseNode k ns) j = if j = k then none else lookupNode ns j
  | [], j => by
    simp only [eraseNode, lookupNode]
    split <;> rfl
  | p :: rest, j => by
    by_cases hpk : p.1 = k
    · by_cases hpj : p.1 = j
      · subst hpk; subst hpj
        simp [eraseNode, lookupNode, lookup_eraseNode p.1 rest p.1]
      · subst hpk
        have hjp : ¬ j = p.1 := fun h => hpj h.symm
        simp [eraseNode, lookupNode, hpj, hjp, lookup_eraseNode p.1 rest j]
    · by_cases hpj : p.1 = j
      · subst hpj
        have hjk : ¬ p.1 = k := hpk
        simp [eraseNode, lookupNode, hpk, hjk]
      · simp [eraseNode, lookupNode, hpk, hpj, lookup_eraseNode k rest j]

theorem lookup_mapNodes (g : WNode → WNode) :
    ∀ (ns : NodeList) (j : String),
      lookupNode (ns.map (fun p => (p.1, g p.2))) j = (lookupNode ns j).map g
  | [], j => rfl
  | p :: rest, j => by
    by_cases hpj : p.1 = j <;>
      simp [lookupNode, hpj, lookup_mapNodes g rest j]

theorem lookup_append_fresh :
    ∀ (ns : NodeList) (k : String) (nn : WNode) (j : String),
      lookupNode ns k = none →
      lookupNode (ns ++ [(k, nn)]) j = if j = k then some nn else lookupNode ns j
  | [], k, nn, j, _ => by
    by_cases hj : j = k
    · subst hj; simp [lookupNode]
    · have hk : ¬ k = j := fun h => hj h.symm
      simp [lookupNode, hj, hk]
  | p :: rest, k, nn, j, h => by
    rw [lookupNode] at h
    have hpk : ¬ p.1 = k := by
      intro hc
      rw [if_pos hc] at h
      exact Option.noConfusion h
    rw [if_neg hpk] at h
    by_cases hpj : p.1 = j
    · have hjk : ¬ j = k := fun hc => hpk (by rw [hpj, hc])
      simp [lookupNode, hpj, hjk]
    · simp [lookupNode, hpj, lookup_append_fresh rest k nn j h]

theorem lookup_foldl_updateNode (f : WNode → WNode) :
    ∀ (us : List String) (ns : NodeList) (j : String), us.Nodup →
      lookupNode (us.foldl (fun acc uid => updateNode uid f acc) ns) j
        = if j ∈ us then (lookupNode ns j).map f else lookupNode ns j
  | [], ns, j, _ => by simp
  | u :: us, ns, j, hnd => by
    have hu : u ∉ us := (List.nodup_cons.mp hnd).1
    have hus : us.Nodup := (List.nodup_cons.mp hnd).2
    rw [List.foldl_cons, lookup_foldl_updateNode f us (updateNode u f ns) j hus,
      lookup_updateNode]
    by_cases hjus : j ∈ us
    · have hju : ¬ j = u := fun h => hu (h ▸ hjus)
      simp [hjus, hju, List.mem_cons]
    · by_cases hju : j = u
      · subst hju
        simp [hjus, lookup_updateNode]
      · simp [hjus, hju, List.mem_cons]

theorem updateNode_congr_id (k : String) (f : WNode → WNode) :
    ∀ ns : NodeList, (∀ p ∈ ns, p.1 = k → f p.2 = p.2) → updateNode k f ns = ns
  | [], _ => rfl
  | p :: rest, h => by
    rw [updateNode, updateNode_congr_id k f rest
      (fun q hq hqk => h q (List.mem_cons_of_mem _ hq) hqk)]
    by_cases hpk : p.1 = k
    · rw [if_pos hpk, h p (List.mem_cons_self _ _) hpk]
    · rw [if_neg hpk]

theorem mem_updateNode (k : String) (f : WNode → WNode) :
    ∀ (ns : NodeList) (p : String × WNode), p ∈ updateNode k f ns →
      ∃ q ∈ ns, p = if q.1 = k then (q.1, f q.2) else q
  | [], p, h => absurd h (List.not_mem_nil p)
  | q :: rest, p, h => by
    rw [updateNode] at h
    rcases List.mem_cons.mp h with h | h
    · exact ⟨q, List.mem_cons_self _ _, h⟩
    · obtain ⟨r, hr, hpr⟩ := mem_updateNode k f rest p h
      exact ⟨r, List.mem_cons_of_mem _ hr, hpr⟩

/-! ## Facts about the guarded adjacency mutations -/

theorem mem_add_downstream (d b : String) (n : WNode) :
    b ∈ (add_downstream d n).downstream ↔ b ∈ n.downstream ∨ b = d := by
  rw [add_downstream]
  by_cases h : d ∈ n.downstream
  · rw [if_pos h]
    exact ⟨Or.inl, fun hb => hb.elim id (fun hbd => hbd ▸ h)⟩
  · rw [if_neg h]
    simp

theorem upstream_add_downstream (d : String) (n : WNode) :
    (add_downstream d n).upstream = n.upstream := by
  rw [add_downstream]; split <;> rfl

theorem mem_add_upstream (u a : String) (n : WNode) :
    a ∈ (add_upstream u n).upstream ↔ a ∈ n.upstream ∨ a = u := by
  rw [add_upstream]
  by_cases h : u ∈ n.upstream
  · rw [if_pos h]
    exact ⟨Or.inl, fun hb => hb.elim id (fun hbd => hbd ▸ h)⟩
  · rw [if_neg h]
    simp

theorem downstream_add_upstream (u : String) (n : WNode) :
    (add_upstream u n).downstream = n.downstream := by
  rw [add_upstream]; split <;> rfl

theorem downstream_remove_downstream (d : String) (n : WNode) :
    (remove_downstream d n).downstream = n.downstream.erase d := by
  rw [remove_downstream]
  by_cases h : d ∈ n.downstream
  · rw [if_pos h]
  · rw [if_neg h, List.erase_of_not_mem h]

theorem upstream_remove_downstream (d : String) (n : WNode) :
    (remove_downstream d n).upstream = n.upstream := by
  rw [remove_downstream]; split <;> rfl

theorem upstream_remove_upstream (u : String) (n : WNode) :
    (remove_upstream u n).upstream = n.upstream.erase u := by
  rw [remove_upstream]
  by_cases h : u ∈ n.upstream
  · rw [if_pos h]
  · rw [if_neg h, List.erase_of_not_mem h]

theorem downstream_remove_upstream (u : String) (n : WNode) :
    (remove_upstream u n).downstream = n.downstream := by
  rw [remove_upstream]; split <;> rfl

theorem upstream_clear_parent (pid : String) (n : WNode) :
    (clear_parent pid n).upstream = n.upstream := by
  rw [clear_parent]; split <;> rfl

theorem downstream_clear_parent (pid : String) (n : WNode) :
    (clear_parent pid n).downstream = n.downstream := by
  rw [clear_parent]; split <;> rfl

/-! ## Claim C8 — connect and disconnect error behaviour -/

/-- Claim C8 (amended): `connect_nodes` fails with the node-not-found
`ValueError` whenever either endpoint is absent, and connecting an
already-connected pair is a no-op returning the identical graph (no
duplicate adjacency entries); `disconnect_nodes`, however, never fails —
missing endpoints or absent edges only produce a logged warning, each side
being cleaned independently. -/
theorem claim_C8_amended (w : Workflow) (u d : String) :
    ((lookupNode w.nodes u = none ∨ lookupNode w.nodes d = none) →
      ∃ m, connect_nodes w u d = .error (.valueError m)) ∧
    (∀ w2, connect_nodes w u d = .ok w2 → connect_nodes w2 u d = .ok w2) ∧
    (∃ w3, disconnect_nodes w u d = .ok w3) := by
  refine ⟨?_, ?_, ⟨_, rfl⟩⟩
  · intro habs
    rcases e1 : lookupNode w.nodes u with _ | un
    · exact ⟨_, by rw [connect_nodes, e1]⟩
    · rcases e2 : lookupNode w.nodes d with _ | dn
      · exact ⟨_, by rw [connect_nodes, e1, e2]⟩
      · rcases habs with h | h
        · rw [e1] at h; exact Option.noConfusion h
        · rw [e2] at h; exact Option.noConfusion h
  · intro w2 hok
    rcases e1 : lookupNode w.nodes u with _ | un
    · rw [connect_nodes, e1] at hok
      exact Except.noConfusion hok
    · rcases e2 : lookupNode w.nodes d with _ | dn
      · rw [connect_nodes, e1, e2] at hok
        exact Except.noConfusion hok
      · rw [connect_nodes, e1, e2] at hok
        have hw2 : w2 = { w with
            nodes := updateNode d (add_upstream u) (updateNode u (add_downstream d) w.nodes) } :=
          (Except.ok.inj hok).symm
        have hmemu : ∀ p ∈ updateNode d (add_upstream u) (updateNode u (add_downstream d) w.nodes),
            p.1 = u → d ∈ p.2.downstream := by
          intro p hp hpu
          obtain ⟨q, hq, hpq⟩ := mem_updateNode d (add_upstream u) _ p hp
          obtain ⟨r, hr, hqr⟩ := mem_updateNode u (add_downstream d) _ q hq
          have hq1 : q.1 = r.1 := by
            rw [hqr]; by_cases h : r.1 = u <;> simp [h]
          have hp1 : p.1 = q.1 := by
            rw [hpq]; by_cases h : q.1 = d <;> simp [h]
          have hru : r.1 = u := by rw [← hq1, ← hp1]; exact hpu
          have hq2 : q.2 = add_downstream d r.2 := by rw [hqr, if_pos hru]
          have hqd2 : d ∈ q.2.downstream := by
            rw [hq2, mem_add_downstream]
            exact Or.inr rfl
          rw [hpq]
          by_cases hqd : q.1 = d
          · rw [if_pos hqd]
            show d ∈ (add_upstream u q.2).downstream
            rw [downstream_add_upstream]
            exact hqd2
          · rw [if_neg hqd]
            exact hqd2
        have hmemd : ∀ p ∈ updateNode d (add_upstream u) (updateNode u (add_downstream d) w.nodes),
            p.1 = d → u ∈ p.2.upstream := by
          intro p hp hpd
          obtain ⟨q, hq, hpq⟩ := mem_updateNode d (add_upstream u) _ p hp
          by_cases hqd : q.1 = d
          · rw [if_pos hqd] at hpq
            rw [hpq]
            show u ∈ (add_upstream u q.2).upstream
            rw [mem_add_upstream]
            exact Or.inr rfl
          · rw [if_neg hqd] at hpq
            rw [hpq] at hpd
            exact absurd hpd hqd
        have hlu : (lookupNode w2.nodes u).isSome = true := by
          rw [hw2]
          show (lookupNode (updateNode d (add_upstream u)
            (updateNode u (add_downstream d) w.nodes)) u).isSome = true
          rw [isSome_lookup_updateNode, isSome_lookup_updateNode, e1]
          rfl
        have hld : (lookupNode w2.nodes d).isSome = true := by
          rw [hw2]
          show (lookupNode (updateNode d (add_upstream u)
            (updateNode u (add_downstream d) w.nodes)) d).isSome = true
          rw [isSome_lookup_updateNode, isSome_lookup_updateNode, e2]
          rfl
        have hmemu2 : ∀ p ∈ w2.nodes, p.1 = u → d ∈ p.2.downstream := by
          rw [hw2]; exact hmemu
        have hmemd2 : ∀ p ∈ w2.nodes, p.1 = d → u ∈ p.2.upstream := by
          rw [hw2]; exact hmemd
        rcases e3 : lookupNode w2.nodes u with _ | un2
        · rw [e3] at hlu; exact Bool.noConfusion hlu
        · rcases e4 : lookupNode w2.nodes d with _ | dn2
          · rw [e4] at hld; exact Bool.noConfusion hld
          · rw [connect_nodes, e3, e4]
            have hid1 : updateNode u (add_downstream d) w2.nodes = w2.nodes :=
              updateNode_congr_id u (add_downstream d) w2.nodes (by
                intro p hp hpu
                rw [add_downstream, if_pos (hmemu2 p hp hpu)])
            have hid2 : updateNode d (add_upstream u) w2.nodes = w2.nodes :=
              updateNode_congr_id d (add_upstream u) w2.nodes (by
                intro p hp hpd
                rw [add_upstream, if_pos (hmemd2 p hp hpd)])
            simp only [hid1, hid2]

/-- Claim C8 witness: on the empty workflow, connect fails with the
node-not-found error while disconnect succeeds. -/
theorem claim_C8_witness :
    (∃ m, connect_nodes create_workflow "a" "b" = .error (.valueError m)) ∧
    (∃ w3, disconnect_nodes create_workflow "a" "b" = .ok w3) := by
  have h := claim_C8_amended create_workflow "a" "b"
  exact ⟨h.1 (Or.inl rfl), h.2.2⟩

/-- Claim C8 counterexample: disconnecting two ids absent from the node
mapping does not fail with a node-not-found error — it returns the workflow
unchanged — refuting "disconnect fails with a node-not-found error whenever
either endpoint id is absent". -/
theorem claim_C8_counterexample :
    disconnect_nodes create_workflow "nodeA" "nodeB" = .ok create_workflow := by
  decide

/-! ## Claim C10 — closure and symmetry invariants of the graph operations -/

theorem nodup_downstream_add_downstream (d : String) (n : WNode)
    (h : n.downstream.Nodup) : (add_downstream d n).downstream.Nodup := by
  rw [add_downstream]
  by_cases hm : d ∈ n.downstream
  · rw [if_pos hm]; exact h
  · rw [if_neg hm]
    exact List.Nodup.append h (List.nodup_singleton d)
      (fun a ha had => hm (by rcases List.mem_singleton.mp had with rfl; exact ha))

theorem nodup_upstream_add_upstream (u : String) (n : WNode)
    (h : n.upstream.Nodup) : (add_upstream u n).upstream.Nodup := by
  rw [add_upstream]
  by_cases hm : u ∈ n.upstream
  · rw [if_pos hm]; exact h
  · rw [if_neg hm]
    exact List.Nodup.append h (List.nodup_singleton u)
      (fun a ha had => hm (by rcases List.mem_singleton.mp had with rfl; exact ha))

theorem wfinv_empty : WfInv [] := by
  refine ⟨?_, ?_, ?_⟩
  · intro k n h; exact Option.noConfusion h
  · intro k n h; exact Option.noConfusion h
  · intro a b
    constructor
    · rintro ⟨n, hn, -⟩; exact Option.noConfusion hn
    · rintro ⟨n, hn, -⟩; exact Option.noConfusion hn

theorem wfinv_add (ns : NodeList) (id : String) (nn : WNode)
    (hinv : WfInv ns) (hfresh : lookupNode ns id = none)
    (hup : nn.upstream = []) (hdown : nn.downstream = []) :
    WfInv (ns ++ [(id, nn)]) := by
  obtain ⟨hadj, hclosed, hsymm⟩ := hinv
  have hl : ∀ j, lookupNode (ns ++ [(id, nn)]) j
      = if j = id then some nn else lookupNode ns j :=
    fun j => lookup_append_fresh ns id nn j hfresh
  have hD : ∀ a b, hasDown (ns ++ [(id, nn)]) a b ↔ hasDown ns a b := by
    intro a b
    constructor
    · rintro ⟨n, hn, hb⟩
      rw [hl a] at hn
      by_cases ha : a = id
      · rw [if_pos ha] at hn
        cases Option.some.inj hn
        rw [hdown] at hb
        exact absurd hb (List.not_mem_nil b)
      · rw [if_neg ha] at hn
        exact ⟨n, hn, hb⟩
    · rintro ⟨n, hn, hb⟩
      refine ⟨n, ?_, hb⟩
      rw [hl a]
      by_cases ha : a = id
      · rw [ha] at hn; rw [hn] at hfresh; exact Option.noConfusion hfresh
      · rw [if_neg ha]; exact hn
  have hU : ∀ b a, hasUp (ns ++ [(id, nn)]) b a ↔ hasUp ns b a := by
    intro b a
    constructor
    · rintro ⟨n, hn, hb⟩
      rw [hl b] at hn
      by_cases hb2 : b = id
      · rw [if_pos hb2] at hn
        cases Option.some.inj hn
        rw [hup] at hb
        exact absurd hb (List.not_mem_nil a)
      · rw [if_neg hb2] at hn
        exact ⟨n, hn, hb⟩
    · rintro ⟨n, hn, hb⟩
      refine ⟨n, ?_, hb⟩
      rw [hl b]
      by_cases hb2 : b = id
      · rw [hb2] at hn; rw [hn] at hfresh; exact Option.noConfusion hfresh
      · rw [if_neg hb2]; exact hn
  refine ⟨?_, ?_, ?_⟩
  · intro k n hk
    rw [hl k] at hk
    by_cases hkid : k = id
    · rw [if_pos hkid] at hk
      cases Option.some.inj hk
      rw [hup, hdown]
      exact ⟨List.nodup_nil, List.nodup_nil⟩
    · rw [if_neg hkid] at hk
      exact hadj k n hk
  · intro k n hk
    have hsome : ∀ i, (lookupNode ns i).isSome = true →
        (lookupNode (ns ++ [(id, nn)]) i).isSome = true := by
      intro i hi
      rw [hl i]
      by_cases hiid : i = id
      · rw [if_pos hiid]; rfl
      · rw [if_neg hiid]; exact hi
    rw [hl k] at hk
    by_cases hkid : k = id
    · rw [if_pos hkid] at hk
      cases Option.some.inj hk
      rw [hup, hdown]
      exact ⟨fun i hi => absurd hi (List.not_mem_nil i),
             fun i hi => absurd hi (List.not_mem_nil i)⟩
    · rw [if_neg hkid] at hk
      obtain ⟨h1, h2⟩ := hclosed k n hk
      exact ⟨fun i hi => hsome i (h1 i hi), fun i hi => hsome i (h2 i hi)⟩
  · intro a b
    rw [hD a b, hU b a]
    exact hsymm a b

theorem wfinv_connect (ns : NodeList) (u d : String) (un dn : WNode)
    (hinv : WfInv ns) (hu : lookupNode ns u = some un) (hd : lookupNode ns d = some dn) :
    WfInv (updateNode d (add_upstream u) (updateNode u (add_downstream d) ns)) := by
  obtain ⟨hadj, hclosed, hsymm⟩ := hinv
  have h1 : ∀ j, lookupNode (updateNode u (add_downstream d) ns) j
      = if j = u then some (add_downstream d un) else lookupNode ns j := by
    intro j
    rw [lookup_updateNode]
    by_cases hj : j = u
    · simp [hj, hu]
    · simp [hj]
  have hdd : lookupNode (updateNode u (add_downstream d) ns) d
      = some (if d = u then add_downstream d un else dn) := by
    rw [h1]
    by_cases hdu : d = u <;> simp [hdu, hd]
  have h2 : ∀ j, lookupNode (updateNode d (add_upstream u) (updateNode u (add_downstream d) ns)) j
      = if j = d then some (add_upstream u (if d = u then add_downstream d un else dn))
        else if j = u then some (add_downstream d un) else lookupNode ns j := by
    intro j
    rw [lookup_updateNode, hdd, h1 j]
    by_cases hjd : j = d <;> simp [hjd]
  have hDownN : ∀ a b,
      hasDown (updateNode d (add_upstream u) (updateNode u (add_downstream d) ns)) a b
        ↔ hasDown ns a b ∨ (a = u ∧ b = d) := by
    intro a b
    constructor
    · rintro ⟨n, hn, hb⟩
      rw [h2 a] at hn
      by_cases had : a = d
      · rw [if_pos had] at hn
        cases Option.some.inj hn
        rw [downstream_add_upstream] at hb
        by_cases hdu : d = u
        · rw [if_pos hdu] at hb
          rw [mem_add_downstream] at hb
          rcases hb with hb | rfl
          · exact Or.inl ⟨un, by rw [had, hdu]; exact hu, hb⟩
          · exact Or.inr ⟨by rw [had, hdu], rfl⟩
        · rw [if_neg hdu] at hb
          exact Or.inl ⟨dn, by rw [had]; exact hd, hb⟩
      · rw [if_neg had] at hn
        by_cases hau : a = u
        · rw [if_pos hau] at hn
          cases Option.some.inj hn
          rw [mem_add_downstream] at hb
          rcases hb with hb | rfl
          · exact Or.inl ⟨un, by rw [hau]; exact hu, hb⟩
          · exact Or.inr ⟨hau, rfl⟩
        · rw [if_neg hau] at hn
          exact Or.inl ⟨n, hn, hb⟩
    · intro hcase
      rcases hcase with ⟨n, hn, hb⟩ | ⟨ha, hb⟩
      · rw [hasDown]
        rw [h2 a]
        by_cases had : a = d
        · have hnd : n = dn := by
            rw [had] at hn
            exact Option.some.inj (hn.symm.trans hd)
          refine ⟨_, by rw [if_pos had], ?_⟩
          rw [downstream_add_upstream]
          by_cases hdu : d = u
          · have hnu : n = un := by
              rw [had, hdu] at hn
              exact Option.some.inj (hn.symm.trans hu)
            rw [if_pos hdu, mem_add_downstream]
            exact Or.inl (hnu ▸ hb)
          · rw [if_neg hdu]
            exact hnd ▸ hb
        · rw [if_neg had]
          by_cases hau : a = u
          · have hnu : n = un := by
              rw [hau] at hn
              exact Option.some.inj (hn.symm.trans hu)
            refine ⟨_, by rw [if_pos hau], ?_⟩
            rw [mem_add_downstream]
            exact Or.inl (hnu ▸ hb)
          · exact ⟨n, by rw [if_neg hau]; exact hn, hb⟩
      · rw [hasDown, h2 a]
        by_cases had : a = d
        · have hdu : d = u := had.symm.trans ha
          refine ⟨_, by rw [if_pos had], ?_⟩
          rw [downstream_add_upstream, if_pos hdu, mem_add_downstream]
          exact Or.inr hb
        · refine ⟨_, by rw [if_neg had, if_pos ha], ?_⟩
          rw [mem_add_downstream]
          exact Or.inr hb
  have hUpN : ∀ b a,
      hasUp (updateNode d (add_upstream u) (updateNode u (add_downstream d) ns)) b a
        ↔ hasUp ns b a ∨ (b = d ∧ a = u) := by
    intro b a
    constructor
    · rintro ⟨n, hn, hb⟩
      rw [h2 b] at hn
      by_cases hbd : b = d
      · rw [if_pos hbd] at hn
        cases Option.some.inj hn
        rw [mem_add_upstream] at hb
        rcases hb with hb | rfl
        · by_cases hdu : d = u
          · rw [if_pos hdu, upstream_add_downstream] at hb
            exact Or.inl ⟨un, by rw [hbd, hdu]; exact hu, hb⟩
          · rw [if_neg hdu] at hb
            exact Or.inl ⟨dn, by rw [hbd]; exact hd, hb⟩
        · exact Or.inr ⟨hbd, rfl⟩
      · rw [if_neg hbd] at hn
        by_cases hbu : b = u
        · rw [if_pos hbu] at hn
          cases Option.some.inj hn
          rw [upstream_add_downstream] at hb
          exact Or.inl ⟨un, by rw [hbu]; exact hu, hb⟩
        · rw [if_neg hbu] at hn
          exact Or.inl ⟨n, hn, hb⟩
    · intro hcase
      rcases hcase with ⟨n, hn, hb⟩ | ⟨hbd, hau⟩
      · rw [hasUp, h2 b]
        by_cases hbd : b = d
        · have hnd : n = dn := by
            rw [hbd] at hn
            exact Option.some.inj (hn.symm.trans hd)
          refine ⟨_, by rw [if_pos hbd], ?_⟩
          rw [mem_add_upstream]
          by_cases hdu : d = u
          · have hnu : n = un := by
              rw [hbd, hdu] at hn
              exact Option.some.inj (hn.symm.trans hu)
            rw [if_pos hdu, upstream_add_downstream]
            exact Or.inl (hnu ▸ hb)
          · rw [if_neg hdu]
            exact Or.inl (hnd ▸ hb)
        · rw [if_neg hbd]
          by_cases hbu : b = u
          · have hnu : n = un := by
              rw [hbu] at hn
              exact Option.some.inj (hn.symm.trans hu)
            refine ⟨_, by rw [if_pos hbu], ?_⟩
            rw [upstream_add_downstream]
            exact hnu ▸ hb
          · exact ⟨n, by rw [if_neg hbu]; exact hn, hb⟩
      · rw [hasUp, h2 b]
        refine ⟨_, by rw [if_pos hbd], ?_⟩
        rw [mem_add_upstream]
        exact Or.inr hau
  have hsome : ∀ i, (lookupNode ns i).isSome = true →
      (lookupNode (updateNode d (add_upstream u) (updateNode u (add_downstream d) ns)) i).isSome
        = true := by
    intro i hi
    rw [isSome_lookup_updateNode, isSome_lookup_updateNode]
    exact hi
  refine ⟨?_, ?_, ?_⟩
  · intro k n hk
    rw [h2 k] at hk
    by_cases hkd : k = d
    · rw [if_pos hkd] at hk
      cases Option.some.inj hk
      constructor
      · apply nodup_upstream_add_upstream
        by_cases hdu : d = u
        · rw [if_pos hdu, upstream_add_downstream]
          exact (hadj u un hu).1
        · rw [if_neg hdu]
          exact (hadj d dn hd).1
      · rw [downstream_add_upstream]
        by_cases hdu : d = u
        · rw [if_pos hdu]
          exact nodup_downstream_add_downstream d un (hadj u un hu).2
        · rw [if_neg hdu]
          exact (hadj d dn hd).2
    · rw [if_neg hkd] at hk
      by_cases hku : k = u
      · rw [if_pos hku] at hk
        cases Option.some.inj hk
        rw [upstream_add_downstream]
        exact ⟨(hadj u un hu).1, nodup_downstream_add_downstream d un (hadj u un hu).2⟩
      · rw [if_neg hku] at hk
        exact hadj k n hk
  · intro k n hk
    rw [h2 k] at hk
    by_cases hkd : k = d
    · rw [if_pos hkd] at hk
      cases Option.some.inj hk
      constructor
      · intro i hi
        rw [mem_add_upstream] at hi
        rcases hi with hi | rfl
        · by_cases hdu : d = u
          · rw [if_pos hdu, upstream_add_downstream] at hi
            exact hsome i ((hclosed u un hu).1 i hi)
          · rw [if_neg hdu] at hi
            exact hsome i ((hclosed d dn hd).1 i hi)
        · exact hsome i (by rw [hu]; rfl)
      · intro i hi
        rw [downstream_add_upstream] at hi
        by_cases hdu : d = u
        · rw [if_pos hdu, mem_add_downstream] at hi
          rcases hi with hi | rfl
          · exact hsome i ((hclosed u un hu).2 i hi)
          · exact hsome i (by rw [hd]; rfl)
        · rw [if_neg hdu] at hi
          exact hsome i ((hclosed d dn hd).2 i hi)
    · rw [if_neg hkd] at hk
      by_cases hku : k = u
      · rw [if_pos hku] at hk
        cases Option.some.inj hk
        constructor
        · intro i hi
          rw [upstream_add_downstream] at hi
          exact hsome i ((hclosed u un hu).1 i hi)
        · intro i hi
          rw [mem_add_downstream] at hi
          rcases hi with hi | rfl
          · exact hsome i ((hclosed u un hu).2 i hi)
          · exact hsome i (by rw [hd]; rfl)
      · rw [if_neg hku] at hk
        obtain ⟨hc1, hc2⟩ := hclosed k n hk
        exact ⟨fun i hi => hsome i (hc1 i hi), fun i hi => hsome i (hc2 i hi)⟩
  · intro a b
    rw [hDownN a b, hUpN b a, hsymm a b]
    tauto

theorem wfinv_disconnect (ns : NodeList) (u d : String) (hinv : WfInv ns) :
    WfInv (updateNode d (remove_upstream u) (updateNode u (remove_downstream d) ns)) := by
  obtain ⟨hadj, hclosed, hsymm⟩ := hinv
  have h1 : ∀ j, lookupNode (updateNode u (remove_downstream d) ns) j
      = (lookupNode ns j).map (fun m => if j = u then remove_downstream d m else m) := by
    intro j
    rw [lookup_updateNode]
    by_cases hju : j = u
    · rw [if_pos hju, hju]
      cases lookupNode ns u <;> simp [hju]
    · rw [if_neg hju]
      cases lookupNode ns j <;> simp [hju]
  have h2 : ∀ j, lookupNode (updateNode d (remove_upstream u)
        (updateNode u (remove_downstream d) ns)) j
      = (lookupNode ns j).map (fun m =>
          if j = d then remove_upstream u (if j = u then remove_downstream d m else m)
          else (if j = u then remove_downstream d m else m)) := by
    intro j
    rw [lookup_updateNode, h1 d, h1 j]
    by_cases hjd : j = d
    · rw [if_pos hjd, hjd]
      cases lookupNode ns d <;> simp [hjd]
    · rw [if_neg hjd]
      cases lookupNode ns j <;> simp [hjd]
  have hdown_gm : ∀ (a : String) (m : WNode),
      (if a = d then remove_upstream u (if a = u then remove_downstream d m else m)
        else (if a = u then remove_downstream d m else m)).downstream
      = if a = u then m.downstream.erase d else m.downstream := by
    intro a m
    by_cases hjd : a = d
    · by_cases hju : a = u
      · rw [if_pos hjd, downstream_remove_upstream, if_pos hju, if_pos hju,
          downstream_remove_downstream]
      · rw [if_pos hjd, downstream_remove_upstream, if_neg hju, if_neg hju]
    · by_cases hju : a = u
      · rw [if_neg hjd, if_pos hju, if_pos hju, downstream_remove_downstream]
      · rw [if_neg hjd, if_neg hju, if_neg hju]
  have hup_gm : ∀ (a : String) (m : WNode),
      (if a = d then remove_upstream u (if a = u then remove_downstream d m else m)
        else (if a = u then remove_downstream d m else m)).upstream
      = if a = d then m.upstream.erase u else m.upstream := by
    intro a m
    by_cases hjd : a = d
    · by_cases hju : a = u
      · rw [if_pos hjd, if_pos hjd, upstream_remove_upstream, if_pos hju,
          upstream_remove_downstream]
      · rw [if_pos hjd, if_pos hjd, upstream_remove_upstream, if_neg hju]
    · by_cases hju : a = u
      · rw [if_neg hjd, if_neg hjd, if_pos hju, upstream_remove_downstream]
      · rw [if_neg hjd, if_neg hjd, if_neg hju]
  have hsome : ∀ i, (lookupNode ns i).isSome = true →
      (lookupNode (updateNode d (remove_upstream u)
        (updateNode u (remove_downstream d) ns)) i).isSome = true := by
    intro i hi
    rw [isSome_lookup_updateNode, isSome_lookup_updateNode]
    exact hi
  have hDownN : ∀ a b,
      hasDown (updateNode d (remove_upstream u) (updateNode u (remove_downstream d) ns)) a b
        ↔ hasDown ns a b ∧ ¬ (a = u ∧ b = d) := by
    intro a b
    constructor
    · rintro ⟨n, hn, hb⟩
      rw [h2 a] at hn
      cases e : lookupNode ns a with
      | none => rw [e] at hn; exact Option.noConfusion hn
      | some m =>
        rw [e] at hn
        cases Option.some.inj hn
        rw [hdown_gm a m] at hb
        by_cases hau : a = u
        · rw [if_pos hau] at hb
          have hb2 := (List.Nodup.mem_erase_iff (hadj a m e).2).mp hb
          exact ⟨⟨m, e, hb2.2⟩, fun hc => hb2.1 hc.2⟩
        · rw [if_neg hau] at hb
          exact ⟨⟨m, e, hb⟩, fun hc => hau hc.1⟩
    · rintro ⟨⟨m, hm, hb⟩, hneg⟩
      refine ⟨_, by rw [h2 a, hm]; rfl, ?_⟩
      rw [hdown_gm a m]
      by_cases hau : a = u
      · rw [if_pos hau]
        refine (List.Nodup.mem_erase_iff (hadj a m hm).2).mpr ⟨fun hbd => ?_, hb⟩
        exact hneg ⟨hau, hbd⟩
      · rw [if_neg hau]
        exact hb
  have hUpN : ∀ b a,
      hasUp (updateNode d (remove_upstream u) (updateNode u (remove_downstream d) ns)) b a
        ↔ hasUp ns b a ∧ ¬ (b = d ∧ a = u) := by
    intro b a
    constructor
    · rintro ⟨n, hn, hb⟩
      rw [h2 b] at hn
      cases e : lookupNode ns b with
      | none => rw [e] at hn; exact Option.noConfusion hn
      | some m =>
        rw [e] at hn
        cases Option.some.inj hn
        rw [hup_gm b m] at hb
        by_cases hbd : b = d
        · rw [if_pos hbd] at hb
          have hb2 := (List.Nodup.mem_erase_iff (hadj b m e).1).mp hb
          exact ⟨⟨m, e, hb2.2⟩, fun hc => hb2.1 hc.2⟩
        · rw [if_neg hbd] at hb
          exact ⟨⟨m, e, hb⟩, fun hc => hbd hc.1⟩
    · rintro ⟨⟨m, hm, hb⟩, hneg⟩
      refine ⟨_, by rw [h2 b, hm]; rfl, ?_⟩
      rw [hup_gm b m]
      by_cases hbd : b = d
      · rw [if_pos hbd]
        refine (List.Nodup.mem_erase_iff (hadj b m hm).1).mpr ⟨fun hau => ?_, hb⟩
        exact hneg ⟨hbd, hau⟩
      · rw [if_neg hbd]
        exact hb
  refine ⟨?_, ?_, ?_⟩
  · intro k n hk
    rw [h2 k] at hk
    cases e : lookupNode ns k with
    | none => rw [e] at hk; exact Option.noConfusion hk
    | some m =>
      rw [e] at hk
      cases Option.some.inj hk
      constructor
      · rw [hup_gm k m]
        by_cases hkd : k = d
        · rw [if_pos hkd]
          exact List.Nodup.erase u (hadj k m e).1
        · rw [if_neg hkd]
          exact (hadj k m e).1
      · rw [hdown_gm k m]
        by_cases hku : k = u
        · rw [if_pos hku]
          exact List.Nodup.erase d (hadj k m e).2
        · rw [if_neg hku]
          exact (hadj k m e).2
  · intro k n hk
    rw [h2 k] at hk
    cases e : lookupNode ns k with
    | none => rw [e] at hk; exact Option.noConfusion hk
    | some m =>
      rw [e] at hk
      cases Option.some.inj hk
      constructor
      · intro i hi
        rw [hup_gm k m] at hi
        have hi2 : i ∈ m.upstream := by
          by_cases hkd : k = d
          · rw [if_pos hkd] at hi
            exact List.mem_of_mem_erase hi
          · rw [if_neg hkd] at hi
            exact hi
        exact hsome i ((hclosed k m e).1 i hi2)
      · intro i hi
        rw [hdown_gm k m] at hi
        have hi2 : i ∈ m.downstream := by
          by_cases hku : k = u
          · rw [if_pos hku] at hi
            exact List.mem_of_mem_erase hi
          · rw [if_neg hku] at hi
            exact hi
        exact hsome i ((hclosed k m e).2 i hi2)
  · intro a b
    rw [hDownN a b, hUpN b a, hsymm a b]
    tauto

theorem wfinv_remove (ns : NodeList) (id : String) (n : WNode)
    (hinv : WfInv ns) (hid : lookupNode ns id = some n) :
    WfInv (remove_node_nodes ns id n) := by
  obtain ⟨hadj, hclosed, hsymm⟩ := hinv
  have hndup := hadj id n hid
  set ns1 := n.upstream.foldl (fun acc uid => updateNode uid (remove_downstream id) acc) ns
    with hns1
  set dl := (match lookupNode ns1 id with
    | some n1 => n1.downstream
    | none => ([] : List String)) with hdl0
  set ns2 := dl.foldl (fun acc did => updateNode did (remove_upstream id) acc) ns1 with hns2
  set ns3 := ns2.map (fun p => (p.1, clear_parent id p.2)) with hns3
  have hgoal : remove_node_nodes ns id n = eraseNode id ns3 := rfl
  rw [hgoal]
  have h1 : ∀ j, lookupNode ns1 j
      = if j ∈ n.upstream then (lookupNode ns j).map (remove_downstream id)
        else lookupNode ns j := by
    intro j
    rw [hns1]
    exact lookup_foldl_updateNode (remove_downstream id) n.upstream ns j hndup.1
  have hupiff : ∀ j m, lookupNode ns j = some m →
      (j ∈ n.upstream ↔ id ∈ m.downstream) := by
    intro j m hm
    constructor
    · intro hj
      obtain ⟨m2, hm2, hmem⟩ := (hsymm j id).mpr ⟨n, hid, hj⟩
      cases Option.some.inj (hm2.symm.trans hm)
      exact hmem
    · intro hj
      obtain ⟨n2, hn2, hmem⟩ := (hsymm j id).mp ⟨m, hm, hj⟩
      cases Option.some.inj (hn2.symm.trans hid)
      exact hmem
  have hdl : dl = n.downstream.erase id := by
    rw [hdl0, h1 id]
    by_cases hmem : id ∈ n.upstream
    · rw [if_pos hmem, hid]
      show (remove_downstream id n).downstream = _
      rw [downstream_remove_downstream]
    · rw [if_neg hmem, hid]
      show n.downstream = _
      rw [List.erase_of_not_mem (fun hc => hmem ((hupiff id n hid).mpr hc))]
  have hdlnodup : dl.Nodup := by
    rw [hdl]
    exact List.Nodup.erase id hndup.2
  have h3 : ∀ j, lookupNode ns2 j
      = if j ∈ dl then (lookupNode ns1 j).map (remove_upstream id) else lookupNode ns1 j := by
    intro j
    rw [hns2]
    exact lookup_foldl_updateNode (remove_upstream id) dl ns1 j hdlnodup
  have h4 : ∀ j, lookupNode ns3 j = (lookupNode ns2 j).map (clear_parent id) := by
    intro j
    rw [hns3]
    exact lookup_mapNodes (clear_parent id) ns2 j
  have hdowniff : ∀ j m, lookupNode ns j = some m → j ≠ id →
      (j ∈ dl ↔ id ∈ m.upstream) := by
    intro j m hm hj
    rw [hdl, List.Nodup.mem_erase_iff hndup.2]
    constructor
    · rintro ⟨-, hjd⟩
      obtain ⟨m2, hm2, hmem⟩ := (hsymm id j).mp ⟨n, hid, hjd⟩
      cases Option.some.inj (hm2.symm.trans hm)
      exact hmem
    · intro hmem
      refine ⟨hj, ?_⟩
      obtain ⟨n2, hn2, hmem2⟩ := (hsymm id j).mpr ⟨m, hm, hmem⟩
      cases Option.some.inj (hn2.symm.trans hid)
      exact hmem2
  have hFval : ∀ j, lookupNode (eraseNode id ns3) j = if j = id then none else
      (lookupNode ns j).map (fun m => clear_parent id
        ((if j ∈ dl then remove_upstream id else fun x => x)
          ((if j ∈ n.upstream then remove_downstream id else fun x => x) m))) := by
    intro j
    rw [lookup_eraseNode id ns3 j]
    by_cases hj : j = id
    · rw [if_pos hj, if_pos hj]
    · rw [if_neg hj, if_neg hj, h4 j, h3 j, h1 j]
      by_cases hjdl : j ∈ dl <;> by_cases hjup : j ∈ n.upstream <;>
        cases lookupNode ns j <;> simp [hjdl, hjup]
  have hTdownlist : ∀ (j : String) (m : WNode),
      (clear_parent id ((if j ∈ dl then remove_upstream id else fun x => x)
        ((if j ∈ n.upstream then remove_downstream id else fun x => x) m))).downstream
      = if j ∈ n.upstream then m.downstream.erase id else m.downstream := by
    intro j m
    rw [downstream_clear_parent]
    by_cases hjdl : j ∈ dl
    · by_cases hjup : j ∈ n.upstream
      · rw [if_pos hjdl, downstream_remove_upstream, if_pos hjup, if_pos hjup,
          downstream_remove_downstream]
      · rw [if_pos hjdl, downstream_remove_upstream, if_neg hjup, if_neg hjup]
    · by_cases hjup : j ∈ n.upstream
      · rw [if_neg hjdl, if_pos hjup, if_pos hjup, downstream_remove_downstream]
      · rw [if_neg hjdl, if_neg hjup, if_neg hjup]
  have hTuplist : ∀ (j : String) (m : WNode),
      (clear_parent id ((if j ∈ dl then remove_upstream id else fun x => x)
        ((if j ∈ n.upstream then remove_downstream id else fun x => x) m))).upstream
      = if j ∈ dl then m.upstream.erase id else m.upstream := by
    intro j m
    rw [upstream_clear_parent]
    by_cases hjdl : j ∈ dl
    · by_cases hjup : j ∈ n.upstream
      · rw [if_pos hjdl, if_pos hjdl, upstream_remove_upstream, if_pos hjup,
          upstream_remove_downstream]
      · rw [if_pos hjdl, if_pos hjdl, upstream_remove_upstream, if_neg hjup]
    · by_cases hjup : j ∈ n.upstream
      · rw [if_neg hjdl, if_neg hjdl, if_pos hjup, upstream_remove_downstream]
      · rw [if_neg hjdl, if_neg hjdl, if_neg hjup]
  have hTdownmem : ∀ k m b, lookupNode ns k = some m →
      (b ∈ (if k ∈ n.upstream then m.downstream.erase id else m.downstream)
        ↔ b ∈ m.downstream ∧ b ≠ id) := by
    intro k m b hm
    by_cases hkup : k ∈ n.upstream
    · rw [if_pos hkup, List.Nodup.mem_erase_iff (hadj k m hm).2]
      tauto
    · rw [if_neg hkup]
      have hnid : id ∉ m.downstream := fun hc => hkup ((hupiff k m hm).mpr hc)
      exact ⟨fun hb => ⟨hb, fun hbid => hnid (hbid ▸ hb)⟩, And.left⟩
  have hTupmem : ∀ k m i, lookupNode ns k = some m → k ≠ id →
      (i ∈ (if k ∈ dl then m.upstream.erase id else m.upstream)
        ↔ i ∈ m.upstream ∧ i ≠ id) := by
    intro k m i hm hk
    by_cases hkdl : k ∈ dl
    · rw [if_pos hkdl, List.Nodup.mem_erase_iff (hadj k m hm).1]
      tauto
    · rw [if_neg hkdl]
      have hnid : id ∉ m.upstream := fun hc => hkdl ((hdowniff k m hm hk).mpr hc)
      exact ⟨fun hb => ⟨hb, fun hbid => hnid (hbid ▸ hb)⟩, And.left⟩
  have hDownF : ∀ a b, hasDown (eraseNode id ns3) a b
      ↔ hasDown ns a b ∧ a ≠ id ∧ b ≠ id := by
    intro a b
    constructor
    · rintro ⟨m2, hm2, hb⟩
      rw [hFval a] at hm2
      by_cases ha : a = id
      · rw [if_pos ha] at hm2; exact Option.noConfusion hm2
      · rw [if_neg ha] at hm2
        cases e : lookupNode ns a with
        | none => rw [e] at hm2; exact Option.noConfusion hm2
        | some m =>
          rw [e] at hm2
          cases Option.some.inj hm2
          rw [hTdownlist a m] at hb
          obtain ⟨hb2, hbne⟩ := (hTdownmem a m b e).mp hb
          exact ⟨⟨m, e, hb2⟩, ha, hbne⟩
    · rintro ⟨⟨m, hm, hb⟩, ha, hbne⟩
      refine ⟨_, by rw [hFval a, if_neg ha, hm]; rfl, ?_⟩
      rw [hTdownlist a m]
      exact (hTdownmem a m b hm).mpr ⟨hb, hbne⟩
  have hUpF : ∀ b a, hasUp (eraseNode id ns3) b a
      ↔ hasUp ns b a ∧ b ≠ id ∧ a ≠ id := by
    intro b a
    constructor
    · rintro ⟨m2, hm2, hb⟩
      rw [hFval b] at hm2
      by_cases hbid : b = id
      · rw [if_pos hbid] at hm2; exact Option.noConfusion hm2
      · rw [if_neg hbid] at hm2
        cases e : lookupNode ns b with
        | none => rw [e] at hm2; exact Option.noConfusion hm2
        | some m =>
          rw [e] at hm2
          cases Option.some.inj hm2
          rw [hTuplist b m] at hb
          obtain ⟨hb2, hbne⟩ := (hTupmem b m a e hbid).mp hb
          exact ⟨⟨m, e, hb2⟩, hbid, hbne⟩
    · rintro ⟨⟨m, hm, hb⟩, hbid, hane⟩
      refine ⟨_, by rw [hFval b, if_neg hbid, hm]; rfl, ?_⟩
      rw [hTuplist b m]
      exact (hTupmem b m a hm hbid).mpr ⟨hb, hane⟩
  refine ⟨?_, ?_, ?_⟩
  · intro k m2 hk
    rw [hFval k] at hk
    by_cases hkid : k = id
    · rw [if_pos hkid] at hk; exact Option.noConfusion hk
    · rw [if_neg hkid] at hk
      cases e : lookupNode ns k with
      | none => rw [e] at hk; exact Option.noConfusion hk
      | some m =>
        rw [e] at hk
        cases Option.some.inj hk
        constructor
        · rw [hTuplist k m]
          by_cases hkdl : k ∈ dl
          · rw [if_pos hkdl]; exact List.Nodup.erase id (hadj k m e).1
          · rw [if_neg hkdl]; exact (hadj k m e).1
        · rw [hTdownlist k m]
          by_cases hkup : k ∈ n.upstream
          · rw [if_pos hkup]; exact List.Nodup.erase id (hadj k m e).2
          · rw [if_neg hkup]; exact (hadj k m e).2
  · intro k m2 hk
    rw [hFval k] at hk
    by_cases hkid : k = id
    · rw [if_pos hkid] at hk; exact Option.noConfusion hk
    · rw [if_neg hkid] at hk
      cases e : lookupNode ns k with
      | none => rw [e] at hk; exact Option.noConfusion hk
      | some m =>
        rw [e] at hk
        cases Option.some.inj hk
        constructor
        · intro i hi
          rw [hTuplist k m] at hi
          obtain ⟨hi2, hineid⟩ := (hTupmem k m i e hkid).mp hi
          have hsome := (hclosed k m e).1 i hi2
          rw [hFval i, if_neg hineid]
          cases e2 : lookupNode ns i with
          | none => rw [e2] at hsome; exact Bool.noConfusion hsome
          | some mi => rfl
        · intro i hi
          rw [hTdownlist k m] at hi
          obtain ⟨hi2, hineid⟩ := (hTdownmem k m i e).mp hi
          have hsome := (hclosed k m e).2 i hi2
          rw [hFval i, if_neg hineid]
          cases e2 : lookupNode ns i with
          | none => rw [e2] at hsome; exact Bool.noConfusion hsome
          | some mi => rfl
  · intro a b
    rw [hDownF a b, hUpF b a, hsymm a b]
    tauto

theorem wfinv_step (w : Workflow) (op : WfOp) (hinv : WfInv w.nodes) :
    WfInv (step_op w op).nodes := by
  cases op with
  | add i c p =>
    rw [step_op, apply_op, add_node]
    by_cases h1 : c ∉ available_components
    · rw [if_pos h1]; exact hinv
    · rw [if_neg h1]
      by_cases h2 : (lookupNode w.nodes i).isSome
      · rw [if_pos h2]; exact hinv
      · rw [if_neg h2]
        by_cases h3 : i = ""
        · rw [if_pos h3]; exact hinv
        · rw [if_neg h3]
          exact wfinv_add w.nodes i _ hinv (Option.not_isSome_iff_eq_none.mp h2) rfl rfl
  | connect u d =>
    rw [step_op, apply_op, connect_nodes]
    cases e1 : lookupNode w.nodes u with
    | none => exact hinv
    | some un =>
      cases e2 : lookupNode w.nodes d with
      | none => exact hinv
      | some dn => exact wfinv_connect w.nodes u d un dn hinv e1 e2
  | disconnect u d =>
    exact wfinv_disconnect w.nodes u d hinv
  | remove i =>
    rw [step_op, apply_op, remove_node]
    cases e : lookupNode w.nodes i with
    | none => exact hinv
    | some n => exact wfinv_remove w.nodes i n hinv e

theorem wfinv_run_ops_go (ops : List WfOp) (w : Workflow) (hinv : WfInv w.nodes) :
    WfInv (ops.foldl step_op w).nodes := by
  induction ops generalizing w with
  | nil => exact hinv
  | cons op rest ih => exact ih (step_op w op) (wfinv_step w op hinv)

/-- C10: starting from the empty workflow of `create_workflow`, after any
sequence of `add_node`, `connect_nodes`, `disconnect_nodes` and
`remove_node` operations (a failing operation raises and leaves the graph
unchanged), every id appearing in any node's upstream or downstream list
exists as a key in the node mapping, and the adjacency lists are
symmetric: `b` appears in `a`'s downstream list iff `a` appears in `b`'s
upstream list. -/
theorem claim_C10_invariant (ops : List WfOp) :
    NodesClosed (run_ops ops).nodes ∧ EdgesSymm (run_ops ops).nodes := by
  have h := wfinv_run_ops_go ops create_workflow wfinv_empty
  exact ⟨h.2.1, h.2.2⟩

/-- An evaluated instance of the C10 invariant on a concrete operation
sequence exercising every operation, including failing ones. -/
theorem claim_C10_witness :
    NodesClosed (run_ops [WfOp.add "begin" "Begin" [], WfOp.add "gen" "Generate" [],
      WfOp.add "ans" "Answer" [], WfOp.connect "begin" "gen",
      WfOp.connect "gen" "ans", WfOp.connect "begin" "gen",
      WfOp.connect "gen" "missing", WfOp.disconnect "begin" "gen",
      WfOp.disconnect "begin" "nope", WfOp.remove "gen",
      WfOp.remove "gen", WfOp.add "gen" "NoSuchComponent" []]).nodes ∧
    EdgesSymm (run_ops [WfOp.add "begin" "Begin" [], WfOp.add "gen" "Generate" [],
      WfOp.add "ans" "Answer" [], WfOp.connect "begin" "gen",
      WfOp.connect "gen" "ans", WfOp.connect "begin" "gen",
      WfOp.connect "gen" "missing", WfOp.disconnect "begin" "gen",
      WfOp.disconnect "begin" "nope", WfOp.remove "gen",
      WfOp.remove "gen", WfOp.add "gen" "NoSuchComponent" []]).nodes :=
  claim_C10_invariant _

end Ragflow
